import Mathlib

/-!
Proofreader: a shallow embedding of `main.go`.

The program reads a delimited file record by record and checks every field
against the format declared for its column.  This file embeds

* the regular expressions of the program (Go `regexp`, RE2 syntax) as a small
  abstract syntax with an executable matcher;
* `CreateBlankColArray`, `CheckFormat`, `Validate` and the read loop of `main`
  as pure functions that return the log lines they write and the way they end.

Conventions.  A Go `string` is a Lean `String`, read by the matcher as the
sequence of its characters (`String.data`), the way Go's `regexp` reads a
string rune by rune.  A Go slice is a `List`; indexing a slice out of range is
the run-time panic `Abort.indexOutOfRange`.  `log.Printf` appends a `LogEntry`
to the returned log.  The unbuffered channel `lineChan` is the list of the
records sent on it, in sending order.  `lineNum` is a Go `int`; it starts at 2
and grows by one per record, so it is a `Nat` here (it cannot wrap before
2^63 records have been read).
-/

namespace Proofreader

/-! ## Regular expressions -/

/-- Abstract syntax of the regular expressions used by the program. -/
inductive Regex where
  /-- The empty regular expression `""`: matches the empty string. -/
  | empty : Regex
  /-- A character class given by inclusive ranges, e.g. `[0-9a-fA-F]`. -/
  | cls : List (Char × Char) → Regex
  /-- The dot: any character except newline. -/
  | dot : Regex
  /-- The end-of-text assertion `$` (no multi-line flag). -/
  | eot : Regex
  /-- Concatenation. -/
  | cat : Regex → Regex → Regex
  /-- Alternation `a|b`. -/
  | alt : Regex → Regex → Regex
  /-- Kleene star `a*`. -/
  | star : Regex → Regex

namespace Regex

/-- A single literal character. -/
def lit (c : Char) : Regex := cls [(c, c)]

/-- A literal string, character by character. -/
def str : List Char → Regex
  | [] => empty
  | c :: cs => cat (lit c) (str cs)

/-- Optional `a?`. -/
def opt (a : Regex) : Regex := alt a empty

/-- One or more `a+`. -/
def plus (a : Regex) : Regex := cat a (star a)

/-- Exact repetition `a{n}`. -/
def rep (a : Regex) : Nat → Regex
  | 0 => empty
  | n + 1 => cat a (rep a n)

/-- Up to `n` repetitions `a{0,n}`. -/
def upTo (a : Regex) : Nat → Regex
  | 0 => empty
  | n + 1 => opt (cat a (upTo a n))

/-- Bounded repetition `a{lo,hi}` with `lo ≤ hi`. -/
def repRange (a : Regex) (lo hi : Nat) : Regex := cat (rep a lo) (upTo a (hi - lo))

end Regex

/-- Membership of a character in a class given by inclusive ranges. -/
def inClass (ranges : List (Char × Char)) (c : Char) : Bool :=
  ranges.any (fun r => decide (r.1.toNat ≤ c.toNat) && decide (c.toNat ≤ r.2.toNat))

/-- Iteration of a matching step for the star: all the remainders reachable by
repeating `step`, each round consuming at least one character (a round that
consumes nothing adds no remainder).  The fuel bounds the number of rounds. -/
def starLoop (step : List Char → List (List Char)) : Nat → List Char → List (List Char)
  | 0, s => [s]
  | fuel + 1, s =>
    s :: ((step s).filter (fun t => decide (t.length < s.length))).flatMap (starLoop step fuel)

/-- All the ways the regular expression matches a beginning of `s`: the list
of what remains of `s` after each possible match. -/
def matchRest : Regex → List Char → List (List Char)
  | .empty, s => [s]
  | .cls ranges, s =>
    match s with
    | [] => []
    | c :: t => if inClass ranges c then [t] else []
  | .dot, s =>
    match s with
    | [] => []
    | c :: t => if c = '\n' then [] else [t]
  | .eot, s =>
    match s with
    | [] => [[]]
    | _ :: _ => []
  | .cat a b, s => (matchRest a s).flatMap (matchRest b)
  | .alt a b, s => matchRest a s ++ matchRest b s
  | .star a, s => starLoop (matchRest a) s.length s

/-- Whether the regular expression matches at the very beginning of `s`. -/
def matchesAt (re : Regex) (s : List Char) : Bool := !(matchRest re s).isEmpty

/-- Go's `(*Regexp).MatchString`: whether the string contains any match of the
regular expression (the search is not anchored). -/
def MatchString (re : Regex) (s : String) : Bool :=
  s.data.tails.any (matchesAt re)

/-! ## The program's data -/

/-- The schema: `type PRStruct struct`. -/
structure PRStruct where
  formats : List String
  headerCols : List String
  blankCols : List Bool

/-- One record with its line number: `type LineStruct struct`. -/
structure LineStruct where
  fields : List String
  lineNum : Nat
  deriving DecidableEq, Repr

/-- The regular expression `fmt.Sprintf("%d(,|$)", i)` built by
`CreateBlankColArray` for column `i`. -/
def blankColRegex (i : Nat) : Regex :=
  .cat (.str (Nat.toDigits 10 i)) (.alt (.lit ',') .eot)

/-- Function `func CreateBlankColArray(blankColString string, numCols int) []bool`. -/
def CreateBlankColArray (blankColString : String) (numCols : Nat) : List Bool :=
  (List.range numCols).map (fun i => MatchString (blankColRegex i) blankColString)

/-! ## The formats of `Validate` -/

namespace Regex

/-- The class `[0-9]`, also written `\d` (ASCII digits in RE2). -/
def digit : Regex := cls [('0', '9')]

/-- The class `[0-9a-fA-F]`. -/
def hex : Regex := cls [('0', '9'), ('a', 'f'), ('A', 'F')]

/-- The class `[-+]`. -/
def sign : Regex := cls [('-', '-'), ('+', '+')]

/-- The literal text of a Go string constant. -/
def text (s : String) : Regex := str s.data

/-- Alternation of several branches `a|b|...|z`. -/
def alts : List Regex → Regex
  | [] => cls []
  | [a] => a
  | a :: b :: rest => alt a (alts (b :: rest))

end Regex

open Regex in
/-- The `switch format` of `Validate`: the regular expression chosen for a
format name, `none` for the `default` branch (the panic).  The branches
`text` and `SKIP` leave `regex` at its zero value `""`. -/
def regexOf (format : String) : Option Regex :=
  match format with
  | "uuid" =>
    -- [0-9a-fA-F]{8}-[0-9a-fA-F]{4}-[0-9a-fA-F]{4}-[0-9a-fA-F]{4}-[0-9a-fA-F]{12}
    some (cat (rep hex 8) (cat (lit '-') (cat (rep hex 4) (cat (lit '-') (cat (rep hex 4)
      (cat (lit '-') (cat (rep hex 4) (cat (lit '-') (rep hex 12)))))))))
  | "app_id" => some (rep hex 64) -- [0-9a-fA-F]{64}
  | "user_id" => some (rep hex 32) -- [0-9a-fA-F]{32}
  | "os" => some (alt (text "IOS") (text "AND")) -- (IOS|AND)
  | "version" =>
    -- (\d+\.)?(\d+\.)?(\*|\d+)
    some (cat (opt (cat (plus digit) (lit '.'))) (cat (opt (cat (plus digit) (lit '.')))
      (alt (lit '*') (plus digit))))
  | "ad_id_type" => some (alt (text "IDFA") (text "AAID")) -- (IDFA|AAID)
  | "am_type" => some (rep (cls [('a', 'z')]) 2) -- [a-z]{2}
  | "ip_addr" =>
    -- [0-9]{1,3}\.[0-9]{1,3}\.[0-9]{1,3}\.[0-9]{1,3}
    some (cat (repRange digit 1 3) (cat (lit '.') (cat (repRange digit 1 3) (cat (lit '.')
      (cat (repRange digit 1 3) (cat (lit '.') (repRange digit 1 3)))))))
  | "ts_sec" => some (rep digit 10) -- [0-9]{10}
  | "ts_msec" => some (rep digit 13) -- [0-9]{13}
  | "cc" => some (rep (cls [('A', 'Z')]) 2) -- [A-Z]{2}
  | "loc_context" => some (cat (alt (text "fore") (text "back")) (text "ground")) -- (fore|back)ground
  | "loc_method" => some (alt (text "BCN") (text "GPS")) -- (BCN|GPS)
  | "exchange" =>
    -- (ASX|BIT|BVMF|CPH|Euronext|FWB|LSE|BMAD|NASDAQ|TSX|NYSE|TYO|SIX|OTC Pink|STO)
    some (alts [text "ASX", text "BIT", text "BVMF", text "CPH", text "Euronext", text "FWB",
      text "LSE", text "BMAD", text "NASDAQ", text "TSX", text "NYSE", text "TYO", text "SIX",
      text "OTC Pink", text "STO"])
  | "ticker" => some (rep dot 7) -- .{7}
  | "lat" =>
    -- [-+]?([1-8]?\d(\.\d+)?|90(\.0+)?)
    some (cat (opt sign) (alt
      (cat (opt (cls [('1', '8')])) (cat digit (opt (cat (lit '.') (plus digit)))))
      (cat (text "90") (opt (cat (lit '.') (plus (lit '0')))))))
  | "lon" =>
    -- [-+]?(180(\.0+)?|((1[0-7]\d)|([1-9]?\d))(\.\d+)?)
    some (cat (opt sign) (alt
      (cat (text "180") (opt (cat (lit '.') (plus (lit '0')))))
      (cat (alt (cat (lit '1') (cat (cls [('0', '7')]) digit)) (cat (opt (cls [('1', '9')])) digit))
        (opt (cat (lit '.') (plus digit))))))
  | "int" => some (alt (lit '0') (plus digit)) -- (0|\d+)
  | "float" =>
    -- (0|[-+]?[0-9]*\.?[0-9]+.)
    some (alt (lit '0') (cat (opt sign) (cat (star digit) (cat (opt (lit '.'))
      (cat (plus digit) dot)))))
  | "num" => some (cat (plus digit) (opt (cat (lit '.') (plus digit)))) -- (\d+(\.\d+)?)
  | "text" => some empty
  | "SKIP" => some empty
  | _ => none

/-! ## Log lines and aborts -/

/-- The lines written with `log.Printf`. -/
inductive LogEntry where
  /-- Line `Items in line(%d) != Items in format(%d)`. -/
  | countMismatch (lenLine lenFormat : Nat)
  /-- Line `L:%d C:%d H:%s "%s" not formatted as "%s" type`. -/
  | badFormat (lineNum col : Nat) (headerName field fieldType : String)
  /-- Line `Reading line number %d`. -/
  | readingLine (lineNum : Nat)
  deriving DecidableEq, Repr

/-- The panics that end `Validate`. -/
inductive Abort where
  /-- Panic `panic("[ERROR] Unrecognized format - " + format)`. -/
  | unrecognizedFormat (format : String)
  /-- The run-time panic `index out of range [index] with length len`. -/
  | indexOutOfRange (index len : Nat)
  deriving DecidableEq, Repr

/-- What a piece of `Validate` did: the lines it logged, and the panic that
ended it, if one did. -/
structure Outcome where
  log : List LogEntry
  abort : Option Abort
  deriving DecidableEq, Repr

/-- Function `func CheckFormat(regex, field, fieldType, headerName string, lineNum, col int)`. -/
def CheckFormat (regex : Regex) (field fieldType headerName : String) (lineNum col : Nat) :
    List LogEntry :=
  if !MatchString regex field then [.badFormat lineNum col headerName field fieldType] else []

/-- The body of the loop `for index, field := range line.fields` of `Validate`
for one field: the lines it logs, or the panic it raises. -/
def checkField (pr : PRStruct) (lineNum index : Nat) (field : String) :
    Except Abort (List LogEntry) :=
  match pr.blankCols[index]? with
  | none => .error (.indexOutOfRange index pr.blankCols.length)
  | some blank =>
    if blank && field == "" then .ok []
    else
      match pr.formats[index]? with
      | none => .error (.indexOutOfRange index pr.formats.length)
      | some format =>
        match regexOf format with
        | none => .error (.unrecognizedFormat format)
        | some regex =>
          match pr.headerCols[index]? with
          | none => .error (.indexOutOfRange index pr.headerCols.length)
          | some headerName => .ok (CheckFormat regex field format headerName lineNum index)

/-- The loop `for index, field := range line.fields` of `Validate`, from the
field at `index` on. -/
def validateFields (pr : PRStruct) (lineNum : Nat) : Nat → List String → Outcome
  | _, [] => ⟨[], none⟩
  | index, field :: rest =>
    match checkField pr lineNum index field with
    | .error a => ⟨[], some a⟩
    | .ok out =>
      let r := validateFields pr lineNum (index + 1) rest
      ⟨out ++ r.log, r.abort⟩

/-- The body of the loop `for line := range lineChan` of `Validate` for one
record. -/
def validateLine (pr : PRStruct) (line : LineStruct) : Outcome :=
  let r := validateFields pr line.lineNum 0 line.fields
  ⟨(if line.fields.length ≠ pr.formats.length
      then [.countMismatch line.fields.length pr.formats.length] else []) ++ r.log, r.abort⟩

/-- Function `func Validate(proofreaderData *PRStruct, lineChan <-chan LineStruct)`, on
the records sent on the channel before it is closed. -/
def Validate (pr : PRStruct) : List LineStruct → Outcome
  | [] => ⟨[], none⟩
  | line :: rest =>
    let r := validateLine pr line
    match r.abort with
    | some a => ⟨r.log, some a⟩
    | none =>
      let r2 := Validate pr rest
      ⟨r.log ++ r2.log, r2.abort⟩

/-- The schema built by `main` from the split `field-format`, the header row
and the `blank-cols` string. -/
def mainSchema (formats header : List String) (blankColString : String) : PRStruct :=
  { formats := formats, headerCols := header,
    blankCols := CreateBlankColArray blankColString formats.length }

/-! ## The read loop of `main` -/

/-- The test `rand.Intn(100) <= samplePercentage` of the read loop, for one
value `draw` of `rand.Intn(100)`. -/
def forwards (samplePercentage : Int) (draw : Nat) : Bool :=
  decide ((draw : Int) ≤ samplePercentage)

/-- One call of `r.Read()` before the end of the file: a decoded record or
an error other than `io.EOF`. -/
inductive ReadResult where
  | record (fields : List String)
  | failure (msg : String)
  deriving DecidableEq, Repr

/-- How the read loop ends. -/
inductive LoopEnd where
  /-- On `io.EOF` the loop breaks and `close(lineChan)` runs. -/
  | closed
  /-- On another read error `log.Fatal(error)` exits. -/
  | fatal (msg : String)
  /-- With `outputLines = 0` the test `lineNum % outputLines` is the run-time
  panic `integer divide by zero`. -/
  | divideByZero
  deriving DecidableEq, Repr

/-- What the read loop did: the lines it logged, the records it sent on
`lineChan`, in order, and how it ended. -/
structure LoopOutcome where
  log : List LogEntry
  sent : List LineStruct
  status : LoopEnd

/-- The progress test `if (lineNum % outputLines) == 0` at the top of the
loop: the lines it logs, `none` when it panics. -/
def progressCheck (outputLines : Int) (lineNum : Nat) : Option (List LogEntry) :=
  if outputLines = 0 then none
  else some (if (lineNum : Int).tmod outputLines = 0 then [.readingLine lineNum] else [])

/-- The loop `for` of `main` from `lineNum` on.  `reads` are the results of
the calls of `r.Read()` before `io.EOF`; `draws 0`, `draws 1`, ... are the
successive values of `rand.Intn(100)`. -/
def readLoop (outputLines samplePercentage : Int) :
    Nat → (Nat → Nat) → List ReadResult → LoopOutcome
  | lineNum, _, [] =>
    match progressCheck outputLines lineNum with
    | none => ⟨[], [], .divideByZero⟩
    | some progress => ⟨progress, [], .closed⟩
  | lineNum, _, .failure msg :: _ =>
    match progressCheck outputLines lineNum with
    | none => ⟨[], [], .divideByZero⟩
    | some progress => ⟨progress, [], .fatal msg⟩
  | lineNum, draws, .record line :: rest =>
    match progressCheck outputLines lineNum with
    | none => ⟨[], [], .divideByZero⟩
    | some progress =>
      let r := readLoop outputLines samplePercentage (lineNum + 1) (fun k => draws (k + 1)) rest
      ⟨progress ++ r.log,
        (if forwards samplePercentage (draws 0) then [⟨line, lineNum⟩] else []) ++ r.sent,
        r.status⟩

/-! ## Vocabulary of the properties -/

/-- The pieces of a string between the occurrences of `sep`, as
`strings.Split` gives them for a one-character separator. -/
def splitOn (sep : Char) : List Char → List (List Char)
  | [] => [[]]
  | c :: cs =>
    if c = sep then [] :: splitOn sep cs
    else
      match splitOn sep cs with
      | [] => [[c]]
      | t :: ts => (c :: t) :: ts

/-- The comma-separated tokens of a blank-column specification. -/
def tokens (blankColString : String) : List (List Char) := splitOn ',' blankColString.data

/-- Whether a log line is a field-format diagnostic for column `col`. -/
def isColDiag (col : Nat) : LogEntry → Bool
  | .badFormat _ c _ _ _ => decide (c = col)
  | _ => false

/-- The field-format diagnostics of a log for column `col`. -/
def colDiags (col : Nat) (log : List LogEntry) : List LogEntry := log.filter (isColDiag col)

/-- The line number of a field-format diagnostic. -/
def diagLine : LogEntry → Option Nat
  | .badFormat lineNum _ _ _ _ => some lineNum
  | _ => none

/-- The line numbers of the field-format diagnostics of a log, in order. -/
def diagLines (log : List LogEntry) : List Nat := log.filterMap diagLine

/-- The string contains `n` consecutive decimal digits. -/
def hasDigitRun (n : Nat) (s : String) : Prop :=
  ∃ pre mid post, s.data = pre ++ mid ++ post ∧ mid.length = n ∧ ∀ c ∈ mid, c.isDigit = true

/-! ## The flags, the preset and the header listing -/

/-- The package variables that the flags of `main` set. -/
structure Flags where
  filename : String
  fieldFormatString : String
  delimiter : String
  outputLines : Int
  blankColString : String
  definedFormat : String
  samplePercentage : Int
  displayHeader : Bool

/-- The default values of the flags, as declared at the top of `main`. -/
def defaultFlags : Flags :=
  { filename := "input.csv.gz",
    fieldFormatString := "uuid,ad_id_type,app_id,app_id,uuid,user_id,text,text,os,version,am_type,ip_addr,ts_sec,num,ts_msec,uuid,num,num,ll,cc,num,loc_context,loc_method,text,text",
    delimiter := "|",
    outputLines := 100,
    blankColString := "",
    definedFormat := "",
    samplePercentage := 100,
    displayHeader := false }

/-- Function `func HandleDefinedFormat(format string)`: the package variables
after the call (its three log lines are not modelled). -/
def HandleDefinedFormat (format : String) (flags : Flags) : Flags :=
  match format with
  | "backup" =>
    { flags with
      delimiter := "|",
      fieldFormatString := "uuid,ad_id_type,app_id,app_id,uuid,user_id,text,text,os,version,am_type,ip_addr,ts_sec,int,ts_sec,uuid,int,int,float,float,cc,text,text,text,int,loc_context,loc_method,text,text,int,int,int,int",
      blankColString := "11,14,15,16,17,20,22,23" }
  | _ => flags

/-- The test `if definedFormat != ""` of `main` around the call of
`HandleDefinedFormat`. -/
def applyPreset (flags : Flags) : Flags :=
  if flags.definedFormat ≠ "" then HandleDefinedFormat flags.definedFormat flags else flags

/-- Go's `strings.Split` for a separator of one character. -/
def Split (s : String) (sep : Char) : List String := (splitOn sep s.data).map String.mk

/-- The schema that `main` builds from the flags and the header row. -/
def flagsSchema (flags : Flags) (header : List String) : PRStruct :=
  mainSchema (Split flags.fieldFormatString ',') header flags.blankColString

/-- The lines written by `PrintHeaderCols`. -/
inductive HeaderLine where
  /-- Line `Header`. -/
  | title
  /-- Line `------`. -/
  | rule
  /-- Line `%02d: %s (%s)` for one header column. -/
  | column (index : Nat) (col format : String)
  /-- The closing empty line. -/
  | blank
  deriving DecidableEq, Repr

/-- What `PrintHeaderCols` did: the lines it logged and the panic that ended
it, if one did. -/
structure HeaderOutcome where
  log : List HeaderLine
  abort : Option Abort
  deriving DecidableEq, Repr

/-- The loop `for index, col := range headerCols` of `PrintHeaderCols`, from
the label at `index` on. -/
def printHeaderLoop (formats : List String) : Nat → List String → HeaderOutcome
  | _, [] => ⟨[], none⟩
  | index, col :: rest =>
    match formats[index]? with
    | none => ⟨[], some (.indexOutOfRange index formats.length)⟩
    | some format =>
      let r := printHeaderLoop formats (index + 1) rest
      ⟨.column index col format :: r.log, r.abort⟩

/-- Function `func PrintHeaderCols(headerCols []string, formats []string)`. -/
def PrintHeaderCols (headerCols formats : List String) : HeaderOutcome :=
  let r := printHeaderLoop formats 0 headerCols
  match r.abort with
  | some a => ⟨.title :: .rule :: r.log, some a⟩
  | none => ⟨.title :: .rule :: r.log ++ [.blank], none⟩

/-- The comma-separated list of the given pieces. -/
def joinComma : List (List Char) → List Char
  | [] => []
  | [x] => x
  | x :: y :: rest => x ++ ',' :: joinComma (y :: rest)

/-- The columns that a blank-allowed array marks. -/
def markedCols (blankCols : List Bool) : List Nat :=
  (List.range blankCols.length).filter (fun i => blankCols[i]? == some true)

/-- The first format name, in declared column order, that the switch of
`Validate` does not recognize. -/
def firstUnrecognized (formats : List String) : Option String :=
  formats.find? (fun g => (regexOf g).isNone)

/-- The record has a field whose column format is not recognized and which is
not an empty field in a blank-allowed column. -/
def hasUnrecognizedField (pr : PRStruct) (l : LineStruct) : Prop :=
  ∃ (i : Nat) (field g : String),
    l.fields[i]? = some field ∧ pr.formats[i]? = some g ∧ regexOf g = none ∧
    ¬ (pr.blankCols[i]? = some true ∧ field = "")

/-! ## Lemmas on `Validate` -/

theorem checkField_ok_mem {pr : PRStruct} {ln i : Nat} {field : String} {out : List LogEntry}
    (h : checkField pr ln i field = .ok out) {e : LogEntry} (he : e ∈ out) :
    ∃ header format, e = .badFormat ln i header field format ∧
      pr.headerCols[i]? = some header ∧ pr.formats[i]? = some format := by
  unfold checkField at h
  cases hb : pr.blankCols[i]? with
  | none => simp [hb] at h
  | some blank =>
    simp only [hb] at h
    by_cases hskip : (blank && field == "") = true
    · simp only [hskip, if_true] at h
      cases h; cases he
    · simp only [hskip] at h
      cases hf : pr.formats[i]? with
      | none => simp [hf] at h
      | some format =>
        simp only [hf] at h
        cases hr : regexOf format with
        | none => simp [hr] at h
        | some regex =>
          simp only [hr] at h
          cases hh : pr.headerCols[i]? with
          | none => simp [hh] at h
          | some headerName =>
            simp only [hh] at h
            cases h
            unfold CheckFormat at he
            split at he
            · simp at he
              exact ⟨headerName, format, he, rfl, rfl⟩
            · cases he

theorem validateFields_log_mem (pr : PRStruct) (ln : Nat) :
    ∀ (fields : List String) (s : Nat) (e : LogEntry), e ∈ (validateFields pr ln s fields).log →
      ∃ j field header format, fields[j]? = some field ∧
        e = .badFormat ln (s + j) header field format ∧
        pr.headerCols[s + j]? = some header ∧ pr.formats[s + j]? = some format := by
  intro fields
  induction fields with
  | nil => intro s e he; simp [validateFields] at he
  | cons f rest ih =>
    intro s e he
    unfold validateFields at he
    split at he
    · simp at he
    · rename_i out hout
      simp only [List.mem_append] at he
      rcases he with he | he
      · obtain ⟨header, format, h1, h2, h3⟩ := checkField_ok_mem hout he
        exact ⟨0, f, header, format, by simp, by simpa using h1, by simpa using h2,
          by simpa using h3⟩
      · obtain ⟨j, field, header, format, h1, h2, h3, h4⟩ := ih (s + 1) e he
        refine ⟨j + 1, field, header, format, by simpa using h1, ?_, ?_, ?_⟩
        · rw [h2]; congr 1; omega
        · rw [← h3]; congr 1; omega
        · rw [← h4]; congr 1; omega

theorem validateFields_append (pr : PRStruct) (ln : Nat) :
    ∀ (pre rest : List String) (s : Nat), (validateFields pr ln s pre).abort = none →
      validateFields pr ln s (pre ++ rest) =
        ⟨(validateFields pr ln s pre).log ++ (validateFields pr ln (s + pre.length) rest).log,
          (validateFields pr ln (s + pre.length) rest).abort⟩ := by
  intro pre
  induction pre with
  | nil => intro rest s _; simp [validateFields]
  | cons f pre ih =>
    intro rest s h
    simp only [List.cons_append, validateFields] at h ⊢
    split
    · rename_i a ha
      rw [ha] at h
      simp at h
    · rename_i out hout
      rw [hout] at h
      simp only at h
      simp only [List.append_eq]
      rw [ih rest (s + 1) h]
      simp only [List.append_assoc, List.length_cons]
      have : s + 1 + pre.length = s + (pre.length + 1) := by omega
      rw [this]

theorem checkField_error_unrecognized {pr : PRStruct} {ln i : Nat} {field f : String}
    (h : checkField pr ln i field = .error (.unrecognizedFormat f)) :
    pr.formats[i]? = some f ∧ regexOf f = none := by
  unfold checkField at h
  cases hb : pr.blankCols[i]? with
  | none => simp [hb] at h
  | some blank =>
    simp only [hb] at h
    by_cases hskip : (blank && field == "") = true
    · simp [hskip] at h
    · simp only [hskip] at h
      cases hf : pr.formats[i]? with
      | none => simp [hf] at h
      | some format =>
        simp only [hf] at h
        cases hr : regexOf format with
        | none =>
          simp only [hr] at h
          injection h with h
          injection h with h
          subst h
          exact ⟨rfl, hr⟩
        | some regex =>
          simp only [hr] at h
          cases hh : pr.headerCols[i]? with
          | none => simp [hh] at h
          | some headerName => simp [hh] at h

theorem validateFields_abort (pr : PRStruct) (ln : Nat) :
    ∀ (fields : List String) (s : Nat) (a : Abort), (validateFields pr ln s fields).abort = some a →
      ∃ j field, fields[j]? = some field ∧ checkField pr ln (s + j) field = .error a := by
  intro fields
  induction fields with
  | nil => intro s a h; simp [validateFields] at h
  | cons f rest ih =>
    intro s a h
    unfold validateFields at h
    split at h
    · rename_i b hb
      simp only [Option.some.injEq] at h
      subst h
      exact ⟨0, f, by simp, by simpa using hb⟩
    · simp only at h
      obtain ⟨j, field, h1, h2⟩ := ih (s + 1) a h
      refine ⟨j + 1, field, by simpa using h1, ?_⟩
      rw [← h2]; congr 1; omega

theorem Validate_abort (pr : PRStruct) :
    ∀ (lines : List LineStruct) (a : Abort), (Validate pr lines).abort = some a →
      ∃ l ∈ lines, (validateLine pr l).abort = some a := by
  intro lines
  induction lines with
  | nil => intro a h; simp [Validate] at h
  | cons l rest ih =>
    intro a h
    simp only [Validate] at h
    cases hv : (validateLine pr l).abort with
    | some b =>
      simp only [hv, Option.some.injEq] at h
      subst h
      exact ⟨l, by simp, hv⟩
    | none =>
      simp only [hv] at h
      obtain ⟨l2, hl2, h2⟩ := ih a h
      exact ⟨l2, by simp [hl2], h2⟩

theorem Validate_of_no_abort (pr : PRStruct) :
    ∀ (lines : List LineStruct), (∀ l ∈ lines, (validateLine pr l).abort = none) →
      Validate pr lines = ⟨lines.flatMap (fun l => (validateLine pr l).log), none⟩ := by
  intro lines
  induction lines with
  | nil => intro _; simp [Validate]
  | cons l rest ih =>
    intro h
    have hl := h l (by simp)
    have hrest := ih (fun l2 hl2 => h l2 (by simp [hl2]))
    unfold Validate
    simp only [hl, hrest, List.flatMap_cons]

theorem CreateBlankColArray_length (blankColString : String) (numCols : Nat) :
    (CreateBlankColArray blankColString numCols).length = numCols := by
  simp [CreateBlankColArray]

theorem checkField_eq {pr : PRStruct} (ln : Nat) {i : Nat} {field format header : String}
    {b : Bool} {regex : Regex} (hb : pr.blankCols[i]? = some b)
    (hskip : ¬ (b = true ∧ field = "")) (hf : pr.formats[i]? = some format)
    (hr : regexOf format = some regex) (hh : pr.headerCols[i]? = some header) :
    checkField pr ln i field = .ok (CheckFormat regex field format header ln i) := by
  have hs : (b && field == "") = false := by
    cases b
    · simp
    · simp only [Bool.true_and, beq_eq_false_iff_ne, ne_eq]
      exact fun h => hskip ⟨rfl, h⟩
  simp [checkField, hb, hs, hf, hr, hh]

theorem checkField_blank {pr : PRStruct} (ln : Nat) {i : Nat}
    (hb : pr.blankCols[i]? = some true) : checkField pr ln i "" = .ok [] := by
  simp [checkField, hb]

theorem Validate_single (pr : PRStruct) (l : LineStruct) :
    (Validate pr [l]).log = (validateLine pr l).log ∧
      (Validate pr [l]).abort = (validateLine pr l).abort := by
  simp only [Validate]
  cases hv : (validateLine pr l).abort <;> simp

theorem colDiags_append (c : Nat) (l₁ l₂ : List LogEntry) :
    colDiags c (l₁ ++ l₂) = colDiags c l₁ ++ colDiags c l₂ := by
  simp [colDiags]

theorem colDiags_validateFields_of_ne (pr : PRStruct) (ln c s : Nat) (fields : List String)
    (h : c < s ∨ s + fields.length ≤ c) :
    colDiags c (validateFields pr ln s fields).log = [] := by
  unfold colDiags
  rw [List.filter_eq_nil_iff]
  intro e he
  obtain ⟨j, field, header, format, h1, h2, -, -⟩ := validateFields_log_mem pr ln fields s e he
  have hj : j < fields.length := by
    rcases List.getElem?_eq_some.mp h1 with ⟨hj, -⟩
    exact hj
  subst h2
  simp only [isColDiag, decide_eq_true_eq]
  omega

theorem colDiags_CheckFormat (regex : Regex) (field format header : String) (ln i : Nat) :
    colDiags i (CheckFormat regex field format header ln i) =
      CheckFormat regex field format header ln i := by
  unfold CheckFormat colDiags
  split <;> simp [isColDiag]

theorem colDiags_validateLine (pr : PRStruct) (line : LineStruct) (c : Nat) :
    colDiags c (validateLine pr line).log =
      colDiags c (validateFields pr line.lineNum 0 line.fields).log := by
  simp only [validateLine, colDiags_append]
  split <;> simp [colDiags, isColDiag]

theorem validateFields_abort_none (pr : PRStruct) (ln s : Nat) (fields : List String)
    (h : ∀ j field, fields[j]? = some field → ∃ out, checkField pr ln (s + j) field = .ok out) :
    (validateFields pr ln s fields).abort = none := by
  cases hv : (validateFields pr ln s fields).abort with
  | none => rfl
  | some a =>
    obtain ⟨j, field, h1, h2⟩ := validateFields_abort pr ln fields s a hv
    obtain ⟨out, h3⟩ := h j field h1
    rw [h3] at h2
    cases h2

theorem checkField_ok_of {pr : PRStruct} (ln : Nat) {i : Nat} (field : String)
    (hb : i < pr.blankCols.length) (hh : i < pr.headerCols.length)
    (h : (pr.blankCols[i]? = some true ∧ field = "") ∨
      ∃ g, pr.formats[i]? = some g ∧ regexOf g ≠ none) :
    ∃ out, checkField pr ln i field = .ok out := by
  rcases h with ⟨h1, h2⟩ | ⟨g, h1, h2⟩
  · subst h2
    exact ⟨_, checkField_blank ln h1⟩
  · unfold checkField
    rw [List.getElem?_eq_getElem hb, h1, List.getElem?_eq_getElem hh]
    simp only
    split
    · exact ⟨_, rfl⟩
    · cases hre : regexOf g with
      | none => exact absurd hre h2
      | some regex => exact ⟨_, rfl⟩

theorem validateFields_log_src (pr : PRStruct) (ln : Nat) :
    ∀ (fields : List String) (s : Nat) (e : LogEntry), e ∈ (validateFields pr ln s fields).log →
      ∃ j field out, fields[j]? = some field ∧ checkField pr ln (s + j) field = .ok out ∧
        e ∈ out := by
  intro fields
  induction fields with
  | nil => intro s e he; simp [validateFields] at he
  | cons f rest ih =>
    intro s e he
    unfold validateFields at he
    split at he
    · simp at he
    · rename_i out hout
      simp only [List.mem_append] at he
      rcases he with he | he
      · exact ⟨0, f, out, by simp, by simpa using hout, he⟩
      · obtain ⟨j, field, out2, h1, h2, h3⟩ := ih (s + 1) e he
        refine ⟨j + 1, field, out2, by simpa using h1, ?_, h3⟩
        rw [← h2]; congr 1; omega

theorem validateFields_congr (pr pr2 : PRStruct) (ln : Nat) :
    ∀ (fields : List String) (s : Nat),
      (∀ j field, fields[j]? = some field →
        checkField pr2 ln (s + j) field = checkField pr ln (s + j) field) →
      validateFields pr2 ln s fields = validateFields pr ln s fields := by
  intro fields
  induction fields with
  | nil => intro s _; simp [validateFields]
  | cons f rest ih =>
    intro s h
    have h0 := h 0 f (by simp)
    have hrest := ih (s + 1) (fun j field hj => by
      have := h (j + 1) field (by simpa using hj)
      have e : s + 1 + j = s + (j + 1) := by omega
      rw [e]; exact this)
    simp only [Nat.add_zero] at h0
    simp only [validateFields, h0, hrest]

theorem validateFields_mem_log_of_ok (pr : PRStruct) (ln : Nat) :
    ∀ (fields : List String) (s j : Nat) (field : String) (out : List LogEntry),
      (validateFields pr ln s fields).abort = none → fields[j]? = some field →
      checkField pr ln (s + j) field = .ok out → ∀ e ∈ out, e ∈ (validateFields pr ln s fields).log := by
  intro fields
  induction fields with
  | nil => intro s j field out _ hj; simp at hj
  | cons f rest ih =>
    intro s j field out hab hj hc e he
    unfold validateFields at hab ⊢
    split at hab
    · simp at hab
    · rename_i out0 hout0
      simp only [List.mem_append] at hab ⊢
      cases j with
      | zero =>
        simp only [List.getElem?_cons_zero, Option.some.injEq] at hj
        subst hj
        simp only [Nat.add_zero] at hc
        rw [hout0] at hc
        cases hc
        exact Or.inl he
      | succ k =>
        simp only [List.getElem?_cons_succ] at hj
        have e2 : s + (k + 1) = s + 1 + k := by omega
        rw [e2] at hc
        exact Or.inr (ih (s + 1) k field out hab hj hc e he)

/-! ## Lemmas on the read loop -/

theorem readLoop_sent_mem (outputLines samplePercentage : Int) :
    ∀ (reads : List ReadResult) (n : Nat) (draws : Nat → Nat) (l : LineStruct),
      l ∈ (readLoop outputLines samplePercentage n draws reads).sent →
      ∃ k, l.lineNum = n + k ∧ reads[k]? = some (.record l.fields) ∧
        forwards samplePercentage (draws k) = true := by
  intro reads
  induction reads with
  | nil =>
    intro n draws l hl
    unfold readLoop at hl
    split at hl <;> simp at hl
  | cons r rest ih =>
    intro n draws l hl
    cases r with
    | failure msg =>
      unfold readLoop at hl
      split at hl <;> simp at hl
    | record line =>
      unfold readLoop at hl
      split at hl
      · simp at hl
      · simp only [List.mem_append] at hl
        rcases hl with hl | hl
        · split at hl
          · rename_i hfw
            simp only [List.mem_singleton] at hl
            subst hl
            exact ⟨0, rfl, by simp, hfw⟩
          · simp at hl
        · obtain ⟨k, h1, h2, h3⟩ := ih (n + 1) _ l hl
          exact ⟨k + 1, by omega, by simpa using h2, h3⟩

theorem readLoop_sent_sorted (outputLines samplePercentage : Int) :
    ∀ (reads : List ReadResult) (n : Nat) (draws : Nat → Nat),
      List.Pairwise (· < ·)
        ((readLoop outputLines samplePercentage n draws reads).sent.map (·.lineNum)) := by
  intro reads
  induction reads with
  | nil =>
    intro n draws
    unfold readLoop
    split <;> simp
  | cons r rest ih =>
    intro n draws
    cases r with
    | failure msg =>
      unfold readLoop
      split <;> simp
    | record line =>
      unfold readLoop
      split
      · simp
      · simp only [List.map_append]
        rw [List.pairwise_append]
        refine ⟨?_, ih (n + 1) _, ?_⟩
        · split <;> simp
        · intro a ha b hb
          simp only [List.mem_map] at hb
          obtain ⟨l, hl, rfl⟩ := hb
          obtain ⟨k, h1, -, -⟩ := readLoop_sent_mem outputLines samplePercentage rest (n + 1) _ l hl
          split at ha
          · simp only [List.map_cons, List.map_nil, List.mem_singleton] at ha
            omega
          · simp at ha

theorem readLoop_records (outputLines samplePercentage : Int) (h0 : outputLines ≠ 0) :
    ∀ (records : List (List String)) (n : Nat) (draws : Nat → Nat),
      (readLoop outputLines samplePercentage n draws (records.map .record)).status = .closed ∧
      ∀ k fields, records[k]? = some fields → forwards samplePercentage (draws k) = true →
        ⟨fields, n + k⟩ ∈ (readLoop outputLines samplePercentage n draws (records.map .record)).sent := by
  intro records
  induction records with
  | nil =>
    intro n draws
    simp [readLoop, progressCheck, h0]
  | cons r rest ih =>
    intro n draws
    obtain ⟨ih1, ih2⟩ := ih (n + 1) (fun k => draws (k + 1))
    simp only [List.map_cons, readLoop, progressCheck, h0, if_false]
    refine ⟨ih1, ?_⟩
    intro k fields hk hfw
    simp only [List.mem_append]
    cases k with
    | zero =>
      simp only [List.getElem?_cons_zero, Option.some.injEq] at hk
      subst hk
      left
      simp [hfw]
    | succ k =>
      right
      simp only [List.getElem?_cons_succ] at hk
      have := ih2 k fields hk hfw
      have e : n + (k + 1) = n + 1 + k := by omega
      rw [e]; exact this

/-! ## Lemmas on the diagnostics of a run -/

theorem Validate_log_mem (pr : PRStruct) :
    ∀ (lines : List LineStruct) (e : LogEntry), e ∈ (Validate pr lines).log →
      ∃ l ∈ lines, e ∈ (validateLine pr l).log := by
  intro lines
  induction lines with
  | nil => intro e he; simp [Validate] at he
  | cons l rest ih =>
    intro e he
    simp only [Validate] at he
    cases hv : (validateLine pr l).abort with
    | some a =>
      simp only [hv] at he
      exact ⟨l, by simp, he⟩
    | none =>
      simp only [hv, List.mem_append] at he
      rcases he with he | he
      · exact ⟨l, by simp, he⟩
      · obtain ⟨l2, hl2, h2⟩ := ih e he
        exact ⟨l2, by simp [hl2], h2⟩

theorem validateLine_badFormat_mem {pr : PRStruct} {l : LineStruct} {ln col : Nat}
    {h v f : String} (he : LogEntry.badFormat ln col h v f ∈ (validateLine pr l).log) :
    ln = l.lineNum ∧ l.fields[col]? = some v := by
  simp only [validateLine, List.mem_append] at he
  rcases he with he | he
  · split at he <;> simp at he
  · obtain ⟨j, field, header, format, h1, h2, -, -⟩ :=
      validateFields_log_mem pr _ _ 0 _ he
    simp only [Nat.zero_add] at h2
    injection h2 with e1 e2 e3 e4 e5
    subst e1 e2 e4
    exact ⟨rfl, h1⟩

theorem diagLines_append (l₁ l₂ : List LogEntry) :
    diagLines (l₁ ++ l₂) = diagLines l₁ ++ diagLines l₂ := by
  simp [diagLines]

theorem mem_diagLines {x : Nat} {log : List LogEntry} (hx : x ∈ diagLines log) :
    ∃ col h v f, LogEntry.badFormat x col h v f ∈ log := by
  simp only [diagLines, List.mem_filterMap] at hx
  obtain ⟨e, he, hd⟩ := hx
  cases e with
  | badFormat ln col h v f =>
    simp only [diagLine, Option.some.injEq] at hd
    subst hd
    exact ⟨col, h, v, f, he⟩
  | countMismatch a b => simp [diagLine] at hd
  | readingLine a => simp [diagLine] at hd

theorem diagLines_validateLine {pr : PRStruct} {l : LineStruct} {x : Nat}
    (hx : x ∈ diagLines (validateLine pr l).log) : x = l.lineNum := by
  obtain ⟨col, h, v, f, he⟩ := mem_diagLines hx
  exact (validateLine_badFormat_mem he).1

theorem diagLines_Validate_sorted (pr : PRStruct) :
    ∀ (lines : List LineStruct), List.Pairwise (· < ·) (lines.map (·.lineNum)) →
      List.Pairwise (· ≤ ·) (diagLines (Validate pr lines).log) := by
  intro lines
  induction lines with
  | nil => intro _; simp [Validate, diagLines]
  | cons l rest ih =>
    intro hs
    simp only [List.map_cons, List.pairwise_cons] at hs
    have hl : List.Pairwise (· ≤ ·) (diagLines (validateLine pr l).log) := by
      apply List.pairwise_of_forall_mem_list
      intro a ha b hb
      rw [diagLines_validateLine ha, diagLines_validateLine hb]
    simp only [Validate]
    cases hv : (validateLine pr l).abort with
    | some a => exact hl
    | none =>
      simp only [diagLines_append]
      rw [List.pairwise_append]
      refine ⟨hl, ih hs.2, ?_⟩
      intro a ha b hb
      rw [diagLines_validateLine ha]
      obtain ⟨col, h, v, f, he⟩ := mem_diagLines hb
      obtain ⟨l2, hl2, he2⟩ := Validate_log_mem pr rest _ he
      rw [(validateLine_badFormat_mem he2).1]
      exact Nat.le_of_lt (hs.1 _ (List.mem_map_of_mem _ hl2))

/-! ## Lemmas on the matcher -/

theorem mem_matchRest_rep_cls (r : List (Char × Char)) :
    ∀ (n : Nat) (s t : List Char), t ∈ matchRest (Regex.rep (.cls r) n) s ↔
      ∃ mid, s = mid ++ t ∧ mid.length = n ∧ ∀ c ∈ mid, inClass r c = true := by
  intro n
  induction n with
  | zero =>
    intro s t
    simp only [Regex.rep, matchRest, List.mem_singleton]
    constructor
    · intro h; exact ⟨[], by simp [h], rfl, by simp⟩
    · rintro ⟨mid, h1, h2, -⟩
      rw [List.length_eq_zero] at h2
      subst h2
      simpa using h1.symm
  | succ n ih =>
    intro s t
    simp only [Regex.rep, matchRest, List.mem_flatMap]
    constructor
    · rintro ⟨u, hu, ht⟩
      cases s with
      | nil => simp at hu
      | cons c s2 =>
        simp only at hu
        split at hu
        · rename_i hc
          simp only [List.mem_singleton] at hu
          subst hu
          obtain ⟨mid, h1, h2, h3⟩ := (ih u t).mp ht
          refine ⟨c :: mid, by simp [h1], by simp [h2], ?_⟩
          intro d hd
          simp only [List.mem_cons] at hd
          rcases hd with rfl | hd
          · exact hc
          · exact h3 d hd
        · simp at hu
    · rintro ⟨mid, h1, h2, h3⟩
      cases mid with
      | nil => simp at h2
      | cons c mid2 =>
        subst h1
        refine ⟨mid2 ++ t, ?_, (ih _ t).mpr ⟨mid2, rfl, by simpa using h2, ?_⟩⟩
        · simp [h3 c (by simp)]
        · intro d hd
          exact h3 d (by simp [hd])

theorem MatchString_iff (re : Regex) (s : String) :
    MatchString re s = true ↔ ∃ pre t u, s.data = pre ++ t ∧ u ∈ matchRest re t := by
  simp only [MatchString, List.any_eq_true, List.mem_tails, matchesAt, Bool.not_eq_true',
    List.isEmpty_eq_false]
  constructor
  · rintro ⟨t, ⟨pre, hpre⟩, ht⟩
    obtain ⟨u, hu⟩ := List.exists_mem_of_ne_nil _ ht
    exact ⟨pre, t, u, hpre.symm, hu⟩
  · rintro ⟨pre, t, u, hpre, hu⟩
    exact ⟨t, ⟨pre, hpre.symm⟩, List.ne_nil_of_mem hu⟩

theorem inClass_digit (c : Char) : inClass [('0', '9')] c = c.isDigit := by
  have h0 : '0'.toNat = 48 := by decide
  have h9 : '9'.toNat = 57 := by decide
  simp only [inClass, List.any_cons, List.any_nil, Bool.or_false, h0, h9]
  unfold Char.isDigit Char.toNat
  rfl

theorem MatchString_rep_digit (n : Nat) (s : String) :
    MatchString (Regex.rep Regex.digit n) s = true ↔ hasDigitRun n s := by
  rw [MatchString_iff]
  unfold hasDigitRun Regex.digit
  constructor
  · rintro ⟨pre, t, u, hpre, hu⟩
    obtain ⟨mid, h1, h2, h3⟩ := (mem_matchRest_rep_cls _ n t u).mp hu
    refine ⟨pre, mid, u, by rw [hpre, h1, List.append_assoc], h2, ?_⟩
    intro c hc
    rw [← inClass_digit]; exact h3 c hc
  · rintro ⟨pre, mid, post, h1, h2, h3⟩
    refine ⟨pre, mid ++ post, post, by rw [h1, List.append_assoc], ?_⟩
    refine (mem_matchRest_rep_cls _ n _ post).mpr ⟨mid, rfl, h2, ?_⟩
    intro c hc
    rw [inClass_digit]; exact h3 c hc

/-! ## The claims -/

/-- C1, failing on the code: with the specification `11` and 12 columns,
`CreateBlankColArray` marks column 1 as blank-allowed, although the numeral `1`
is not one of the comma-separated tokens of `11` (the only token is `11`); the
pattern for column 1 matches the last digit of the token. -/
theorem C1_substring_collision :
    (CreateBlankColArray "11" 12)[1]? = some true ∧
      tokens "11" = [Nat.toDigits 10 11] ∧ Nat.toDigits 10 1 ∉ tokens "11" := by
  decide

/-- C2 as stated fails: with the single declared format `bogus`, which is not
recognized, and an empty record stream, `Validate` does not abort, so it is
false that the run aborts exactly when a declared name is unrecognized; and
with formats `int,bogus`, blank columns `1` and the records `["x",""]` and
`["1","y"]`, the abort comes at the second record, after the first one has been
validated and its diagnostic emitted. -/
theorem C2_counterexample :
    ¬ ((∃ f, (Validate (mainSchema ["bogus"] ["h"] "") []).abort = some (.unrecognizedFormat f)) ↔
        (∃ f ∈ ["bogus"], regexOf f = none)) ∧
      Validate (mainSchema ["int", "bogus"] ["a", "b"] "1") [⟨["x", ""], 2⟩, ⟨["1", "y"], 3⟩] =
        ⟨[.badFormat 2 0 "a" "x" "int"], some (.unrecognizedFormat "bogus")⟩ := by
  refine ⟨?_, by decide⟩
  intro h
  obtain ⟨f, hf⟩ := h.mpr ⟨"bogus", by simp, rfl⟩
  simp [Validate] at hf

/-- C2 amended: whatever the format names, header, blank-column specification
and record stream, if `Validate` aborts with the unrecognized-format error for
a name then that name is a declared format name that is not recognized (so the
abort never happens when all names are recognized); and on the empty stream it
never aborts, whatever the names. -/
theorem C2_abort_only_for_unrecognized (formats header : List String) (spec : String)
    (lines : List LineStruct) :
    (∀ f, (Validate (mainSchema formats header spec) lines).abort = some (.unrecognizedFormat f) →
        f ∈ formats ∧ regexOf f = none) ∧
      (Validate (mainSchema formats header spec) []).abort = none := by
  refine ⟨?_, by simp [Validate]⟩
  intro f h
  obtain ⟨l, _, hl⟩ := Validate_abort _ _ _ h
  obtain ⟨j, field, _, hj⟩ := validateFields_abort _ _ _ _ _ hl
  obtain ⟨h1, h2⟩ := checkField_error_unrecognized hj
  refine ⟨?_, h2⟩
  simp only [mainSchema, Nat.zero_add] at h1
  exact List.getElem?_mem h1

/-- C3, failing on the code: with formats `int,int` and the record
`["1","2","3"]`, `Validate` logs the column-count mismatch, checks the first two
fields and then panics with index out of range at the third field, reading
`blankCols[2]` in a slice of length 2. -/
theorem C3_extra_field_panics :
    Validate (mainSchema ["int", "int"] ["a", "b", "c"] "") [⟨["1", "2", "3"], 2⟩] =
      ⟨[.countMismatch 3 2], some (.indexOutOfRange 2 2)⟩ := by
  decide

/-- C4 as stated fails: with formats `bogus,int` and the record `["x","y"]`,
whose field count is within all bounds, the field `y` at index 1 is not an
empty field of a blank-allowed column, its format `int` is a pattern format and
`y` does not match the pattern, yet `Validate` emits no diagnostic for it: it
has panicked at the field of index 0. -/
theorem C4_counterexample :
    ∃ regex, regexOf "int" = some regex ∧ MatchString regex "y" = false ∧
      (mainSchema ["bogus", "int"] ["a", "b"] "").blankCols[1]? = some false ∧
      Validate (mainSchema ["bogus", "int"] ["a", "b"] "") [⟨["x", "y"], 2⟩] =
        ⟨[], some (.unrecognizedFormat "bogus")⟩ ∧
      colDiags 1 (Validate (mainSchema ["bogus", "int"] ["a", "b"] "") [⟨["x", "y"], 2⟩]).log ≠
        [.badFormat 2 1 "b" "y" "int"] := by
  refine ⟨_, rfl, ?_, ?_, ?_, ?_⟩ <;> decide

/-- C4 amended: for a record whose field count is within the bounds of the
schema and header, and a field at index `i` that is not an empty field in a
blank-allowed column and whose format has a pattern, provided every earlier
field of the record is an empty field in a blank-allowed column or has a
recognized format (so that `Validate` reaches the field), `Validate` emits for
column `i` exactly one diagnostic if the value does not match the pattern,
carrying the line number, the index `i`, the header label at `i`, the value and
the format name, and none if it matches.  Instance: formats `uuid,int`, no
blank column and the record `["not-a-uuid","42"]` of line 5 give exactly one
diagnostic, for line 5, column 0, value `not-a-uuid`, format `uuid`. -/
theorem C4_field_diagnostic (pr : PRStruct) (line : LineStruct) (i : Nat)
    (field format header : String) (b : Bool) (regex : Regex)
    (hlenf : line.fields.length ≤ pr.formats.length)
    (hlenb : line.fields.length ≤ pr.blankCols.length)
    (hlenh : line.fields.length ≤ pr.headerCols.length)
    (hfield : line.fields[i]? = some field)
    (hblank : pr.blankCols[i]? = some b) (hskip : ¬ (b = true ∧ field = ""))
    (hformat : pr.formats[i]? = some format) (hregex : regexOf format = some regex)
    (hheader : pr.headerCols[i]? = some header)
    (hearlier : ∀ j f, j < i → line.fields[j]? = some f →
      (pr.blankCols[j]? = some true ∧ f = "") ∨ ∃ g, pr.formats[j]? = some g ∧ regexOf g ≠ none) :
    colDiags i (Validate pr [line]).log =
        (if MatchString regex field then []
          else [.badFormat line.lineNum i header field format]) ∧
      Validate (mainSchema ["uuid", "int"] ["a", "b"] "") [⟨["not-a-uuid", "42"], 5⟩] =
        ⟨[.badFormat 5 0 "a" "not-a-uuid" "uuid"], none⟩ := by
  refine ⟨?_, by decide⟩
  have _ := hlenf
  obtain ⟨hi, hget⟩ := List.getElem?_eq_some.mp hfield
  have hsplit : line.fields = line.fields.take i ++ field :: line.fields.drop (i + 1) := by
    rw [← hget, ← List.drop_eq_getElem_cons hi, List.take_append_drop]
  have hpre : (validateFields pr line.lineNum 0 (line.fields.take i)).abort = none := by
    apply validateFields_abort_none
    intro j f hj
    have hj2 : j < i ∧ line.fields[j]? = some f := by
      rw [List.getElem?_take] at hj
      split at hj
      · rename_i hlt; exact ⟨hlt, hj⟩
      · cases hj
    have hjl : j < line.fields.length := by omega
    rw [Nat.zero_add]
    exact checkField_ok_of _ f (by omega) (by omega) (hearlier j f hj2.1 hj2.2)
  have htake : (line.fields.take i).length = i := by
    rw [List.length_take]; omega
  rw [(Validate_single pr line).1, colDiags_validateLine, hsplit,
    validateFields_append pr _ _ _ 0 hpre]
  simp only [htake, Nat.zero_add, validateFields, checkField_eq line.lineNum hblank hskip hformat
    hregex hheader, colDiags_append, colDiags_CheckFormat]
  rw [colDiags_validateFields_of_ne pr _ i 0 _ (Or.inr (by omega)),
    colDiags_validateFields_of_ne pr _ i (i + 1) _ (Or.inl (by omega))]
  simp only [CheckFormat, List.nil_append, List.append_nil]
  cases MatchString regex field <;> simp

/-- Witness of C4 amended: formats `int,int`, record `["7","x"]` of line 3,
index 1. -/
theorem C4_field_diagnostic_witness :
    colDiags 1 (Validate (mainSchema ["int", "int"] ["a", "b"] "") [⟨["7", "x"], 3⟩]).log =
        (if MatchString (.alt (.lit '0') (.plus .digit)) "x" then []
          else [.badFormat 3 1 "b" "x" "int"]) ∧
      Validate (mainSchema ["uuid", "int"] ["a", "b"] "") [⟨["not-a-uuid", "42"], 5⟩] =
        ⟨[.badFormat 5 0 "a" "not-a-uuid" "uuid"], none⟩ :=
  C4_field_diagnostic (mainSchema ["int", "int"] ["a", "b"] "") ⟨["7", "x"], 3⟩ 1 "x" "int" "b"
    false (.alt (.lit '0') (.plus .digit)) (by decide) (by decide) (by decide) (by decide)
    (by decide) (by decide) (by decide) rfl (by decide)
    (by
      intro j f hj hf
      have hj0 : j = 0 := by omega
      subst hj0
      exact Or.inr ⟨"int", by decide, by simp [regexOf]⟩)

/-- C5 as stated fails: with formats `bogus,int`, blank columns `1` and the
record `["x",""]`, column 1 is blank-allowed and the field of index 1 is empty,
yet `Validate` aborts: it panics at the field of index 0, whose format is not
recognized. -/
theorem C5_counterexample :
    (mainSchema ["bogus", "int"] ["a", "b"] "1").blankCols[1]? = some true ∧
      (⟨["x", ""], 2⟩ : LineStruct).fields[1]? = some "" ∧
      Validate (mainSchema ["bogus", "int"] ["a", "b"] "1") [⟨["x", ""], 2⟩] =
        ⟨[], some (.unrecognizedFormat "bogus")⟩ := by
  refine ⟨?_, ?_, ?_⟩ <;> decide

/-- C5 amended: for every schema, every blank-allowed column index `i` and
every record whose field `i` is the empty string, the loop body of `Validate`
for that field continues with the next field without logging and without a
panic; `Validate` emits no field-format diagnostic for column `i` on the
record; what `Validate` does on the record is the same whatever format name is
declared for column `i`; and `Validate` does not abort on the record, whatever
that format name, provided the field count of the record is within the bounds
of the schema and header and every other field is an empty field in a
blank-allowed column or has a recognized format.  Instance: formats `int,int`,
blank columns `1` and the record `["7",""]` give no diagnostic and no abort. -/
theorem C5_blank_field_skipped (pr : PRStruct) (line : LineStruct) (i : Nat)
    (hblank : pr.blankCols[i]? = some true) (hfield : line.fields[i]? = some "") :
    checkField pr line.lineNum i "" = .ok [] ∧
      colDiags i (Validate pr [line]).log = [] ∧
      (∀ g, Validate { pr with formats := pr.formats.set i g } [line] = Validate pr [line]) ∧
      ((line.fields.length ≤ pr.formats.length ∧ line.fields.length ≤ pr.blankCols.length ∧
          line.fields.length ≤ pr.headerCols.length) →
        (∀ j f, j ≠ i → line.fields[j]? = some f →
          (pr.blankCols[j]? = some true ∧ f = "") ∨
            ∃ g, pr.formats[j]? = some g ∧ regexOf g ≠ none) →
        (Validate pr [line]).abort = none ∧
          ∀ g, (Validate { pr with formats := pr.formats.set i g } [line]).abort = none) ∧
      Validate (mainSchema ["int", "int"] ["a", "b"] "1") [⟨["7", ""], 2⟩] = ⟨[], none⟩ := by
  have hinv : ∀ g, Validate { pr with formats := pr.formats.set i g } [line] =
      Validate pr [line] := by
    intro g
    have hvf : validateFields { pr with formats := pr.formats.set i g } line.lineNum 0 line.fields =
        validateFields pr line.lineNum 0 line.fields := by
      apply validateFields_congr
      intro j field hj
      rw [Nat.zero_add]
      by_cases hji : j = i
      · subst hji
        rw [hfield] at hj
        cases hj
        rw [checkField_blank _ hblank, checkField_blank _ (by simpa using hblank)]
      · have hget : (pr.formats.set i g)[j]? = pr.formats[j]? := by
          rw [List.getElem?_set_ne (Ne.symm hji)]
        simp only [checkField, hget, List.length_set]
    simp only [Validate, validateLine, hvf, List.length_set]
  refine ⟨checkField_blank _ hblank, ?_, hinv, ?_, by decide⟩
  · rw [(Validate_single pr line).1, colDiags_validateLine]
    unfold colDiags
    rw [List.filter_eq_nil_iff]
    intro e he
    obtain ⟨j, field, out, h1, h2, h3⟩ := validateFields_log_src pr _ _ 0 e he
    obtain ⟨header, format, h4, -, -⟩ := checkField_ok_mem h2 h3
    subst h4
    simp only [isColDiag, decide_eq_true_eq, Nat.zero_add]
    intro hji
    subst hji
    rw [hfield] at h1
    cases h1
    rw [Nat.zero_add, checkField_blank _ hblank] at h2
    cases h2
    cases h3
  · rintro ⟨-, hlenb, hlenh⟩ hothers
    have hab : (Validate pr [line]).abort = none := by
      rw [(Validate_single pr line).2]
      simp only [validateLine]
      apply validateFields_abort_none
      intro j f hj
      rw [Nat.zero_add]
      obtain ⟨hjl, -⟩ := List.getElem?_eq_some.mp hj
      by_cases hji : j = i
      · subst hji
        rw [hfield] at hj
        cases hj
        exact ⟨_, checkField_blank _ hblank⟩
      · exact checkField_ok_of _ f (by omega) (by omega) (hothers j f hji hj)
    refine ⟨hab, ?_⟩
    intro g
    rw [hinv g]
    exact hab

/-- Witness of C5 amended: the schema of formats `int,bogus` with blank columns
`1` and the record `["7",""]`, where the blank-allowed column has an
unrecognized format and `Validate` does not abort. -/
theorem C5_blank_field_skipped_witness :
    checkField (mainSchema ["int", "bogus"] ["a", "b"] "1") 2 1 "" = .ok [] ∧
      colDiags 1 (Validate (mainSchema ["int", "bogus"] ["a", "b"] "1") [⟨["7", ""], 2⟩]).log = [] ∧
      (Validate (mainSchema ["int", "bogus"] ["a", "b"] "1") [⟨["7", ""], 2⟩]).abort = none ∧
      ∀ g, (Validate { mainSchema ["int", "bogus"] ["a", "b"] "1" with
            formats := (mainSchema ["int", "bogus"] ["a", "b"] "1").formats.set 1 g }
          [⟨["7", ""], 2⟩]).abort = none :=
  (fun h => ⟨h.1, h.2.1,
    h.2.2.2.1 ⟨by decide, by decide, by decide⟩
      (by
        intro j f hj hf
        obtain ⟨hjl, -⟩ := List.getElem?_eq_some.mp hf
        have hj0 : j = 0 := by
          simp only [List.length_cons, List.length_nil] at hjl
          omega
        subst hj0
        exact Or.inr ⟨"int", by decide, by simp [regexOf]⟩)⟩)
    (C5_blank_field_skipped (mainSchema ["int", "bogus"] ["a", "b"] "1") ⟨["7", ""], 2⟩ 1
      (by decide) (by decide))

/-- C6: for every schema whose format names are all recognized, with
`blankCols = CreateBlankColArray(spec, len(formats))`, and every finite stream
of records each having at most `len(formats)` and at most `len(headerCols)`
fields, `Validate` ends without a panic; its log is the concatenation, in
order, of what the loop body logs for each record; every record is processed
to its end, and the check of each of its fields returns normally, with the
diagnostics it produces present in the log. -/
theorem C6_no_abort (formats header : List String) (spec : String) (lines : List LineStruct)
    (hrec : ∀ f ∈ formats, regexOf f ≠ none)
    (hlen : ∀ l ∈ lines, l.fields.length ≤ formats.length ∧ l.fields.length ≤ header.length) :
    (Validate (mainSchema formats header spec) lines).abort = none ∧
      (Validate (mainSchema formats header spec) lines).log =
        lines.flatMap (fun l => (validateLine (mainSchema formats header spec) l).log) ∧
      ∀ l ∈ lines, (validateLine (mainSchema formats header spec) l).abort = none ∧
        ∀ j field, l.fields[j]? = some field →
          ∃ out, checkField (mainSchema formats header spec) l.lineNum j field = .ok out ∧
            ∀ e ∈ out, e ∈ (Validate (mainSchema formats header spec) lines).log := by
  have hok : ∀ l ∈ lines, ∀ j field, l.fields[j]? = some field →
      ∃ out, checkField (mainSchema formats header spec) l.lineNum j field = .ok out := by
    intro l hl j field hj
    obtain ⟨hjl, -⟩ := List.getElem?_eq_some.mp hj
    have h1 := (hlen l hl).1
    have h2 := (hlen l hl).2
    have hjf : j < formats.length := by omega
    apply checkField_ok_of
    · simp only [mainSchema, CreateBlankColArray_length]; omega
    · simp only [mainSchema]; omega
    · exact Or.inr ⟨formats[j], by simp [mainSchema, hjf], hrec _ (List.getElem_mem hjf)⟩
  have hline : ∀ l ∈ lines, (validateLine (mainSchema formats header spec) l).abort = none := by
    intro l hl
    simp only [validateLine]
    apply validateFields_abort_none
    intro j field hj
    rw [Nat.zero_add]
    exact hok l hl j field hj
  have hV := Validate_of_no_abort (mainSchema formats header spec) lines hline
  refine ⟨by rw [hV], by rw [hV], ?_⟩
  intro l hl
  refine ⟨hline l hl, ?_⟩
  intro j field hj
  obtain ⟨out, hout⟩ := hok l hl j field hj
  refine ⟨out, hout, ?_⟩
  intro e he
  rw [hV]
  simp only [List.mem_flatMap]
  refine ⟨l, hl, ?_⟩
  simp only [validateLine, List.mem_append]
  right
  have hab := hline l hl
  simp only [validateLine] at hab
  exact validateFields_mem_log_of_ok _ _ _ 0 j field out hab hj (by rw [Nat.zero_add]; exact hout)
    e he

/-- Witness of C6: formats `int,uuid`, two records, the second one short. -/
theorem C6_no_abort_witness :
    (Validate (mainSchema ["int", "uuid"] ["a", "b"] "1") [⟨["x", "y"], 2⟩, ⟨["7"], 3⟩]).abort =
        none ∧
      (Validate (mainSchema ["int", "uuid"] ["a", "b"] "1") [⟨["x", "y"], 2⟩, ⟨["7"], 3⟩]).log =
        [⟨["x", "y"], 2⟩, ⟨["7"], 3⟩].flatMap
          (fun l => (validateLine (mainSchema ["int", "uuid"] ["a", "b"] "1") l).log) ∧
      ∀ l ∈ [(⟨["x", "y"], 2⟩ : LineStruct), ⟨["7"], 3⟩],
        (validateLine (mainSchema ["int", "uuid"] ["a", "b"] "1") l).abort = none ∧
        ∀ j field, l.fields[j]? = some field →
          ∃ out, checkField (mainSchema ["int", "uuid"] ["a", "b"] "1") l.lineNum j field =
              .ok out ∧
            ∀ e ∈ out, e ∈ (Validate (mainSchema ["int", "uuid"] ["a", "b"] "1")
              [⟨["x", "y"], 2⟩, ⟨["7"], 3⟩]).log :=
  C6_no_abort ["int", "uuid"] ["a", "b"] "1" [⟨["x", "y"], 2⟩, ⟨["7"], 3⟩]
    (by
      intro f hf
      simp only [List.mem_cons, List.mem_singleton, List.not_mem_nil, or_false] at hf
      rcases hf with rfl | rfl <;> simp [regexOf])
    (by
      intro l hl
      simp only [List.mem_cons, List.mem_singleton, List.not_mem_nil, or_false] at hl
      rcases hl with rfl | rfl <;> decide)

/-- C7, failing on the code: the test `rand.Intn(100) <= samplePercentage`
forwards the record for the draws `0..p`, that is for `p + 1` of the 100 values
when `p < 100`, not for `p` of them.  With `p = 0` the draw `0` forwards the
record, so one draw in 100 forwards, and the read loop then sends the record on
the channel. -/
theorem C7_forwards_one_too_many :
    forwards 0 0 = true ∧
      ((List.range 100).filter (forwards 0)).length = 1 ∧
      (∀ p : Fin 100, ((List.range 100).filter (forwards ((p : Nat) : Int))).length = p + 1) ∧
      (readLoop 100 0 2 (fun _ => 0) [.record ["x"]]).sent = [⟨["x"], 2⟩] := by
  refine ⟨by decide, by decide, ?_, by decide⟩
  decide

/-- C8: for every input and every sequence of sampling draws, each record sent
to `Validate` carries the line number `k + 2` of its 0-based position `k` among
the reads, whatever happened to the earlier records, and the line numbers of
the records sent are strictly increasing in sending order; when
`outputLines` is not zero and every read gives a record, the loop ends by
closing the channel and the record at position `k` is sent, with line number
`k + 2`, whenever its draw passes the sampling test. -/
theorem C8_line_numbers (outputLines samplePercentage : Int) (draws : Nat → Nat)
    (reads : List ReadResult) (records : List (List String)) :
    (∀ l ∈ (readLoop outputLines samplePercentage 2 draws reads).sent,
        ∃ k, l.lineNum = k + 2 ∧ reads[k]? = some (.record l.fields) ∧
          forwards samplePercentage (draws k) = true) ∧
      List.Pairwise (· < ·)
        ((readLoop outputLines samplePercentage 2 draws reads).sent.map (·.lineNum)) ∧
      (outputLines ≠ 0 →
        (readLoop outputLines samplePercentage 2 draws (records.map .record)).status = .closed ∧
        ∀ k fields, records[k]? = some fields → forwards samplePercentage (draws k) = true →
          ⟨fields, k + 2⟩ ∈
            (readLoop outputLines samplePercentage 2 draws (records.map .record)).sent) := by
  refine ⟨?_, readLoop_sent_sorted _ _ _ _ _, ?_⟩
  · intro l hl
    obtain ⟨k, h1, h2, h3⟩ := readLoop_sent_mem _ _ _ _ _ l hl
    exact ⟨k, by omega, h2, h3⟩
  · intro h0
    obtain ⟨h1, h2⟩ := readLoop_records outputLines samplePercentage h0 records 2 draws
    refine ⟨h1, ?_⟩
    intro k fields hk hfw
    have := h2 k fields hk hfw
    have e : k + 2 = 2 + k := by omega
    rw [e]; exact this

/-- C9 as stated fails: with formats `int,int` and the single record
`["x","y"]`, the run emits two field-format diagnostics, both for line 2, so the
line numbers are not strictly increasing from each diagnostic to the next. -/
theorem C9_counterexample :
    (Validate (mainSchema ["int", "int"] ["a", "b"] "")
        (readLoop 100 100 2 (fun _ => 0) [.record ["x", "y"]]).sent).log =
        [.badFormat 2 0 "a" "x" "int", .badFormat 2 1 "b" "y" "int"] ∧
      ¬ List.Pairwise (· < ·) (diagLines (Validate (mainSchema ["int", "int"] ["a", "b"] "")
        (readLoop 100 100 2 (fun _ => 0) [.record ["x", "y"]]).sent).log) := by
  constructor <;> decide

/-- C9 amended: in every run and at every moment of it (for every number `m`
of log lines emitted so far), the line numbers of the field-format diagnostics,
in emission order, never decrease (the diagnostics of one record share its line
number), and each diagnostic carries the line number `k + 2` of the record at
0-based position `k` among the data rows whose field at the reported column is
the reported value. -/
theorem C9_diag_line_numbers (pr : PRStruct) (outputLines samplePercentage : Int)
    (draws : Nat → Nat) (reads : List ReadResult) (m : Nat) :
    List.Pairwise (· ≤ ·) (diagLines
        ((Validate pr (readLoop outputLines samplePercentage 2 draws reads).sent).log.take m)) ∧
      ∀ ln col h v f, LogEntry.badFormat ln col h v f ∈
          (Validate pr (readLoop outputLines samplePercentage 2 draws reads).sent).log.take m →
        ∃ k fields, ln = k + 2 ∧ reads[k]? = some (.record fields) ∧ fields[col]? = some v := by
  constructor
  · have hs := diagLines_Validate_sorted pr _
      (readLoop_sent_sorted outputLines samplePercentage reads 2 draws)
    rw [← List.take_append_drop m (Validate pr _).log, diagLines_append,
      List.pairwise_append] at hs
    exact hs.1
  · intro ln col h v f he
    obtain ⟨l, hl, hel⟩ := Validate_log_mem pr _ _ (List.mem_of_mem_take he)
    obtain ⟨h1, h2⟩ := validateLine_badFormat_mem hel
    obtain ⟨k, h3, h4, -⟩ := readLoop_sent_mem _ _ _ _ _ l hl
    exact ⟨k, l.fields, by omega, h4, h2⟩

/-- C10 as stated fails: for the format `ts_sec` the value `12345678901` of 11
digits is checked and gets no diagnostic, although it does not consist of
exactly 10 decimal digits. -/
theorem C10_counterexample :
    ¬ ((Validate (mainSchema ["ts_sec"] ["t"] "") [⟨["12345678901"], 2⟩]).log = [] ↔
        ("12345678901".data.length = 10 ∧ ∀ c ∈ "12345678901".data, c.isDigit = true)) := by
  intro h
  have h1 := (h.mp (by decide)).1
  revert h1
  decide

/-- C10 amended: for every field value checked against a column of format
`ts_sec` (the column not being blank-skipped), `Validate` emits no diagnostic
if and only if the value contains 10 consecutive decimal digits somewhere, and
otherwise emits the diagnostic of the field; for the format `ts_msec`, if and
only if the value contains 13 consecutive decimal digits. -/
theorem C10_timestamp_digit_run (pr : PRStruct) (ln i n : Nat) (field header format : String)
    (b : Bool) (hfmt : (format = "ts_sec" ∧ n = 10) ∨ (format = "ts_msec" ∧ n = 13))
    (hblank : pr.blankCols[i]? = some b) (hskip : ¬ (b = true ∧ field = ""))
    (hformat : pr.formats[i]? = some format) (hheader : pr.headerCols[i]? = some header) :
    (checkField pr ln i field = .ok [] ↔ hasDigitRun n field) ∧
      (¬ hasDigitRun n field →
        checkField pr ln i field = .ok [.badFormat ln i header field format]) ∧
      ((Validate (mainSchema [format] [header] "") [⟨[field], ln⟩]).log = [] ↔
        hasDigitRun n field) := by
  have hre : regexOf format = some (Regex.rep Regex.digit n) := by
    rcases hfmt with ⟨rfl, rfl⟩ | ⟨rfl, rfl⟩ <;> rfl
  have hcf : ∀ (h2 : String) (j : Nat),
      CheckFormat (Regex.rep Regex.digit n) field format h2 ln j = [] ↔ hasDigitRun n field := by
    intro h2 j
    rw [← MatchString_rep_digit]
    unfold CheckFormat
    cases MatchString (Regex.rep Regex.digit n) field <;> simp
  have hcf2 : ∀ (h2 : String) (j : Nat), ¬ hasDigitRun n field →
      CheckFormat (Regex.rep Regex.digit n) field format h2 ln j =
        [.badFormat ln j h2 field format] := by
    intro h2 j hn
    rw [← MatchString_rep_digit] at hn
    unfold CheckFormat
    cases hm : MatchString (Regex.rep Regex.digit n) field
    · simp
    · exact absurd hm hn
  rw [checkField_eq ln hblank hskip hformat hre hheader]
  refine ⟨?_, ?_, ?_⟩
  · constructor
    · intro h
      injection h with h
      exact (hcf header i).mp h
    · intro h
      rw [(hcf header i).mpr h]
  · intro hn
    rw [hcf2 header i hn]
  · have hb1 : CreateBlankColArray "" 1 = [false] := by decide
    have hb0 : (mainSchema [format] [header] "").blankCols[0]? = some false := by
      simp [mainSchema, hb1]
    have hck : checkField (mainSchema [format] [header] "") ln 0 field =
        .ok (CheckFormat (Regex.rep Regex.digit n) field format header ln 0) :=
      checkField_eq ln hb0 (by simp) rfl hre rfl
    rw [(Validate_single _ _).1]
    simp only [validateLine, validateFields, hck]
    simp only [mainSchema, List.length_singleton, ne_eq, not_true_eq_false, if_false,
      List.nil_append, List.append_nil]
    exact hcf header 0

/-- Witness of C10 amended: the format `ts_sec` and the value `12345678901`. -/
theorem C10_timestamp_digit_run_witness :
    (checkField (mainSchema ["ts_sec"] ["t"] "") 2 0 "12345678901" = .ok [] ↔
        hasDigitRun 10 "12345678901") ∧
      (¬ hasDigitRun 10 "12345678901" →
        checkField (mainSchema ["ts_sec"] ["t"] "") 2 0 "12345678901" =
          .ok [.badFormat 2 0 "t" "12345678901" "ts_sec"]) ∧
      ((Validate (mainSchema ["ts_sec"] ["t"] "") [⟨["12345678901"], 2⟩]).log = [] ↔
        hasDigitRun 10 "12345678901") :=
  C10_timestamp_digit_run (mainSchema ["ts_sec"] ["t"] "") 2 0 10 "12345678901" "t" "ts_sec"
    false (Or.inl ⟨rfl, rfl⟩) (by decide) (by decide) (by decide) (by decide)

/-! ## Lemmas for the later claims -/

theorem MatchString_empty (s : String) : MatchString .empty s = true := by
  rw [MatchString_iff]
  exact ⟨[], s.data, s.data, rfl, by simp [matchRest]⟩

theorem colDiags_of_checkField_nil (pr : PRStruct) (line : LineStruct) (i : Nat) (field : String)
    (hfield : line.fields[i]? = some field)
    (hck : checkField pr line.lineNum i field = .ok []) :
    colDiags i (Validate pr [line]).log = [] := by
  rw [(Validate_single pr line).1, colDiags_validateLine]
  unfold colDiags
  rw [List.filter_eq_nil_iff]
  intro e he
  obtain ⟨j, f2, out, h1, h2, h3⟩ := validateFields_log_src pr _ _ 0 e he
  obtain ⟨header, format, h4, -, -⟩ := checkField_ok_mem h2 h3
  subst h4
  simp only [isColDiag, decide_eq_true_eq, Nat.zero_add]
  intro hji
  subst hji
  rw [hfield] at h1
  cases h1
  rw [Nat.zero_add, hck] at h2
  cases h2
  cases h3

theorem countMismatch_not_mem_validateFields (pr : PRStruct) (ln s : Nat) (fields : List String)
    (a b : Nat) : LogEntry.countMismatch a b ∉ (validateFields pr ln s fields).log := by
  intro h
  obtain ⟨j, field, header, format, -, h2, -, -⟩ := validateFields_log_mem pr ln fields s _ h
  cases h2

theorem validateFields_abort_first (pr : PRStruct) (ln : Nat) :
    ∀ (fields : List String) (s : Nat) (a : Abort), (validateFields pr ln s fields).abort = some a →
      ∃ j field, fields[j]? = some field ∧ checkField pr ln (s + j) field = .error a ∧
        ∀ k fk, k < j → fields[k]? = some fk → ∃ out, checkField pr ln (s + k) fk = .ok out := by
  intro fields
  induction fields with
  | nil => intro s a h; simp [validateFields] at h
  | cons f rest ih =>
    intro s a h
    unfold validateFields at h
    split at h
    · rename_i b hb
      simp only [Option.some.injEq] at h
      subst h
      exact ⟨0, f, by simp, by simpa using hb, by intro k fk hk; omega⟩
    · rename_i out hout
      simp only at h
      obtain ⟨j, field, h1, h2, h3⟩ := ih (s + 1) a h
      refine ⟨j + 1, field, by simpa using h1, ?_, ?_⟩
      · rw [← h2]; congr 1; omega
      · intro k fk hk hfk
        cases k with
        | zero =>
          simp only [List.getElem?_cons_zero, Option.some.injEq] at hfk
          subst hfk
          exact ⟨out, by simpa using hout⟩
        | succ k =>
          simp only [List.getElem?_cons_succ] at hfk
          obtain ⟨o2, ho2⟩ := h3 k fk (by omega) hfk
          refine ⟨o2, ?_⟩
          rw [← ho2]; congr 1; omega

theorem validateFields_ok_of_abort_none (pr : PRStruct) (ln : Nat) :
    ∀ (fields : List String) (s : Nat), (validateFields pr ln s fields).abort = none →
      ∀ j field, fields[j]? = some field → ∃ out, checkField pr ln (s + j) field = .ok out := by
  intro fields
  induction fields with
  | nil => intro s _ j field hj; simp at hj
  | cons f rest ih =>
    intro s h j field hj
    unfold validateFields at h
    split at h
    · simp at h
    · rename_i out hout
      simp only at h
      cases j with
      | zero =>
        simp only [List.getElem?_cons_zero, Option.some.injEq] at hj
        subst hj
        exact ⟨out, by simpa using hout⟩
      | succ k =>
        simp only [List.getElem?_cons_succ] at hj
        obtain ⟨o2, ho2⟩ := ih (s + 1) h k field hj
        refine ⟨o2, ?_⟩
        rw [← ho2]; congr 1; omega

theorem checkField_ok_cases {pr : PRStruct} {ln i : Nat} {field : String} {out : List LogEntry}
    (h : checkField pr ln i field = .ok out) :
    (pr.blankCols[i]? = some true ∧ field = "") ∨
      ∃ g, pr.formats[i]? = some g ∧ regexOf g ≠ none := by
  unfold checkField at h
  cases hb : pr.blankCols[i]? with
  | none => simp [hb] at h
  | some blank =>
    simp only [hb] at h
    by_cases hskip : (blank && field == "") = true
    · left
      simp only [Bool.and_eq_true, beq_iff_eq] at hskip
      exact ⟨by rw [hskip.1], hskip.2⟩
    · right
      simp only [hskip] at h
      cases hf : pr.formats[i]? with
      | none => simp [hf] at h
      | some format =>
        simp only [hf] at h
        cases hr : regexOf format with
        | none => simp [hr] at h
        | some regex => exact ⟨format, rfl, by rw [hr]; simp⟩

theorem checkField_error_not_blank {pr : PRStruct} {ln i : Nat} {field : String} {a : Abort}
    (h : checkField pr ln i field = .error a) :
    ¬ (pr.blankCols[i]? = some true ∧ field = "") := by
  rintro ⟨h1, rfl⟩
  rw [checkField_blank ln h1] at h
  cases h

theorem checkField_error_in_bounds {pr : PRStruct} {ln i : Nat} {field : String} {a : Abort}
    (h : checkField pr ln i field = .error a) (hb : i < pr.blankCols.length)
    (hf : i < pr.formats.length) (hh : i < pr.headerCols.length) :
    ∃ f, a = .unrecognizedFormat f := by
  unfold checkField at h
  rw [List.getElem?_eq_getElem hb, List.getElem?_eq_getElem hf, List.getElem?_eq_getElem hh] at h
  simp only at h
  split at h
  · cases h
  · cases hr : regexOf pr.formats[i] with
    | none =>
      simp only [hr] at h
      injection h with h
      exact ⟨_, h.symm⟩
    | some regex => simp [hr] at h

theorem find?_eq_of_first {α : Type} (p : α → Bool) :
    ∀ (l : List α) (j : Nat) (x : α), l[j]? = some x → p x = true →
      (∀ k y, k < j → l[k]? = some y → p y = false) → l.find? p = some x := by
  intro l
  induction l with
  | nil => intro j x hj; simp at hj
  | cons a rest ih =>
    intro j x hj hp hbefore
    cases j with
    | zero =>
      simp only [List.getElem?_cons_zero, Option.some.injEq] at hj
      subst hj
      simp [List.find?, hp]
    | succ k =>
      simp only [List.getElem?_cons_succ] at hj
      have ha : p a = false := hbefore 0 a (by omega) (by simp)
      simp only [List.find?, ha]
      exact ih k x hj hp (fun m y hm hy => hbefore (m + 1) y (by omega) (by simpa using hy))

theorem Validate_append (pr : PRStruct) :
    ∀ (pre rest : List LineStruct), (∀ r ∈ pre, (validateLine pr r).abort = none) →
      Validate pr (pre ++ rest) =
        ⟨pre.flatMap (fun r => (validateLine pr r).log) ++ (Validate pr rest).log,
          (Validate pr rest).abort⟩ := by
  intro pre
  induction pre with
  | nil => intro rest _; simp
  | cons l pre ih =>
    intro rest h
    have hl := h l (by simp)
    have hrest := ih rest (fun r hr => h r (by simp [hr]))
    simp only [List.cons_append, Validate, hl, List.append_eq, hrest, List.flatMap_cons,
      List.append_assoc]

theorem Validate_cons_abort (pr : PRStruct) (l : LineStruct) (post : List LineStruct) (a : Abort)
    (h : (validateLine pr l).abort = some a) :
    Validate pr (l :: post) = ⟨(validateLine pr l).log, some a⟩ := by
  simp only [Validate, h]

theorem colDiags_validateFields_at (pr : PRStruct) (ln i : Nat) (fields : List String)
    (field : String) (out : List LogEntry)
    (hpre : (validateFields pr ln 0 (fields.take i)).abort = none)
    (hfield : fields[i]? = some field) (hck : checkField pr ln i field = .ok out) :
    colDiags i (validateFields pr ln 0 fields).log = out := by
  obtain ⟨hi, hget⟩ := List.getElem?_eq_some.mp hfield
  have hsplit : fields = fields.take i ++ field :: fields.drop (i + 1) := by
    rw [← hget, ← List.drop_eq_getElem_cons hi, List.take_append_drop]
  have htake : (fields.take i).length = i := by
    rw [List.length_take]; omega
  have hout : colDiags i out = out := by
    unfold colDiags
    rw [List.filter_eq_self]
    intro e he
    obtain ⟨header, format, h1, -, -⟩ := checkField_ok_mem hck he
    subst h1
    simp [isColDiag]
  rw [hsplit, validateFields_append pr _ _ _ 0 hpre]
  simp only [htake, Nat.zero_add, validateFields, hck, colDiags_append, hout]
  rw [colDiags_validateFields_of_ne pr _ i 0 _ (Or.inr (by omega)),
    colDiags_validateFields_of_ne pr _ i (i + 1) _ (Or.inl (by omega))]
  simp

theorem validateLine_abort_in_bounds {pr : PRStruct} {l : LineStruct} {a : Abort}
    (hf : l.fields.length ≤ pr.formats.length) (hb : l.fields.length ≤ pr.blankCols.length)
    (hh : l.fields.length ≤ pr.headerCols.length) (h : (validateLine pr l).abort = some a) :
    (∃ f, a = .unrecognizedFormat f) ∧ hasUnrecognizedField pr l := by
  simp only [validateLine] at h
  obtain ⟨j, field, h1, h2⟩ := validateFields_abort pr _ _ 0 a h
  rw [Nat.zero_add] at h2
  obtain ⟨hj, -⟩ := List.getElem?_eq_some.mp h1
  obtain ⟨f, rfl⟩ := checkField_error_in_bounds h2 (by omega) (by omega) (by omega)
  obtain ⟨h3, h4⟩ := checkField_error_unrecognized h2
  exact ⟨⟨f, rfl⟩, j, field, f, h1, h3, h4, checkField_error_not_blank h2⟩

theorem validateLine_abort_of_unrecognized {pr : PRStruct} {l : LineStruct}
    (hf : l.fields.length ≤ pr.formats.length) (hb : l.fields.length ≤ pr.blankCols.length)
    (hh : l.fields.length ≤ pr.headerCols.length) (h : hasUnrecognizedField pr l) :
    ∃ f, (validateLine pr l).abort = some (.unrecognizedFormat f) := by
  cases hab : (validateLine pr l).abort with
  | some a =>
    obtain ⟨⟨f, rfl⟩, -⟩ := validateLine_abort_in_bounds hf hb hh hab
    exact ⟨f, rfl⟩
  | none =>
    exfalso
    obtain ⟨i, field, g, h1, h2, h3, h4⟩ := h
    simp only [validateLine] at hab
    obtain ⟨out, hout⟩ := validateFields_ok_of_abort_none pr _ _ 0 hab i field h1
    rw [Nat.zero_add] at hout
    rcases checkField_ok_cases hout with hbl | ⟨g2, hg2, hr⟩
    · exact h4 hbl
    · rw [h2] at hg2
      cases hg2
      exact hr h3

theorem Validate_abort_of_unrecognized (pr : PRStruct) :
    ∀ (lines : List LineStruct),
      (∀ l ∈ lines, l.fields.length ≤ pr.formats.length ∧
        l.fields.length ≤ pr.blankCols.length ∧ l.fields.length ≤ pr.headerCols.length) →
      (∃ l ∈ lines, hasUnrecognizedField pr l) →
      ∃ f, (Validate pr lines).abort = some (.unrecognizedFormat f) := by
  intro lines
  induction lines with
  | nil => rintro - ⟨l, hl, -⟩; simp at hl
  | cons l rest ih =>
    intro hb hex
    obtain ⟨h1, h2, h3⟩ := hb l (by simp)
    cases hab : (validateLine pr l).abort with
    | some a =>
      obtain ⟨⟨f, rfl⟩, -⟩ := validateLine_abort_in_bounds h1 h2 h3 hab
      exact ⟨f, by rw [Validate_cons_abort pr l rest _ hab]⟩
    | none =>
      obtain ⟨l2, hl2, hbad⟩ := hex
      simp only [List.mem_cons] at hl2
      rcases hl2 with rfl | hl2
      · obtain ⟨f, hf⟩ := validateLine_abort_of_unrecognized h1 h2 h3 hbad
        rw [hab] at hf
        cases hf
      · obtain ⟨f, hf⟩ := ih (fun r hr => hb r (by simp [hr])) ⟨l2, hl2, hbad⟩
        refine ⟨f, ?_⟩
        simp only [Validate, hab, hf]

theorem inClass_lit (c : Char) : inClass [(c, c)] c = true := by
  simp [inClass]

theorem matchRest_str (t : List Char) :
    ∀ cs : List Char, t ∈ matchRest (Regex.str cs) (cs ++ t) := by
  intro cs
  induction cs with
  | nil => simp [Regex.str, matchRest]
  | cons c cs ih =>
    simp only [Regex.str, Regex.lit, matchRest, List.cons_append, inClass_lit, if_true,
      List.mem_flatMap, List.mem_singleton]
    exact ⟨cs ++ t, rfl, ih⟩

theorem joinComma_mem (x : List Char) :
    ∀ xs : List (List Char), x ∈ xs →
      ∃ pre post, joinComma xs = pre ++ (x ++ post) ∧ (post = [] ∨ ∃ r, post = ',' :: r) := by
  intro xs
  induction xs with
  | nil => intro h; simp at h
  | cons y rest ih =>
    intro h
    cases rest with
    | nil =>
      simp only [List.mem_singleton] at h
      subst h
      exact ⟨[], [], by simp [joinComma], Or.inl rfl⟩
    | cons z rest2 =>
      simp only [List.mem_cons] at h
      rcases h with rfl | h
      · exact ⟨[], ',' :: joinComma (z :: rest2), by simp [joinComma], Or.inr ⟨_, rfl⟩⟩
      · obtain ⟨pre, post, hj, hp⟩ := ih (by simpa using h)
        refine ⟨y ++ ',' :: pre, post, ?_, hp⟩
        simp only [joinComma, hj, List.append_assoc, List.cons_append]

theorem MatchString_blankColRegex (spec : String) (nums : List Nat) (i : Nat)
    (hspec : spec.data = joinComma (nums.map (Nat.toDigits 10))) (hmem : i ∈ nums) :
    MatchString (blankColRegex i) spec = true := by
  rw [MatchString_iff]
  obtain ⟨pre, post, hj, hp⟩ := joinComma_mem (Nat.toDigits 10 i) _ (List.mem_map_of_mem _ hmem)
  rcases hp with rfl | ⟨r, rfl⟩
  · refine ⟨pre, Nat.toDigits 10 i ++ [], [], by rw [hspec, hj], ?_⟩
    simp only [blankColRegex, matchRest, List.mem_flatMap]
    exact ⟨[], matchRest_str [] _, by simp⟩
  · refine ⟨pre, Nat.toDigits 10 i ++ ',' :: r, r, by rw [hspec, hj], ?_⟩
    simp only [blankColRegex, matchRest, List.mem_flatMap]
    exact ⟨',' :: r, matchRest_str _ _, by simp [Regex.lit, inClass_lit]⟩

theorem Validate_abort_first (pr : PRStruct) :
    ∀ (lines : List LineStruct) (a : Abort), (Validate pr lines).abort = some a →
      ∃ pre l post, lines = pre ++ l :: post ∧ (∀ r ∈ pre, (validateLine pr r).abort = none) ∧
        (validateLine pr l).abort = some a := by
  intro lines
  induction lines with
  | nil => intro a h; simp [Validate] at h
  | cons l rest ih =>
    intro a h
    simp only [Validate] at h
    cases hv : (validateLine pr l).abort with
    | some b =>
      simp only [hv, Option.some.injEq] at h
      subst h
      exact ⟨[], l, rest, rfl, by simp, hv⟩
    | none =>
      simp only [hv] at h
      obtain ⟨pre, l2, post, h1, h2, h3⟩ := ih a h
      refine ⟨l :: pre, l2, post, by rw [h1]; rfl, ?_, h3⟩
      intro r hr
      simp only [List.mem_cons] at hr
      rcases hr with rfl | hr
      · exact hv
      · exact h2 r hr

/-! ## The later claims -/

/-- C11: for every field value, empty or not, and every in-bounds column whose
format is `SKIP` or `text`, the check of the field returns without logging, and
`Validate` emits no field-format diagnostic for that column on the record. -/
theorem C11_text_and_skip_pass (pr : PRStruct) (line : LineStruct) (i : Nat)
    (field format header : String) (b : Bool)
    (hfmt : format = "SKIP" ∨ format = "text")
    (hfield : line.fields[i]? = some field)
    (hblank : pr.blankCols[i]? = some b) (hformat : pr.formats[i]? = some format)
    (hheader : pr.headerCols[i]? = some header) :
    checkField pr line.lineNum i field = .ok [] ∧ colDiags i (Validate pr [line]).log = [] := by
  have hre : regexOf format = some .empty := by
    rcases hfmt with rfl | rfl <;> rfl
  have hck : checkField pr line.lineNum i field = .ok [] := by
    by_cases hskip : b = true ∧ field = ""
    · obtain ⟨rfl, rfl⟩ := hskip
      exact checkField_blank _ hblank
    · rw [checkField_eq _ hblank hskip hformat hre hheader]
      simp [CheckFormat, MatchString_empty]
  exact ⟨hck, colDiags_of_checkField_nil pr line i field hfield hck⟩

/-- Witness of C11: formats `SKIP,text`, the record `["","anything"]` of line 2,
index 1. -/
theorem C11_text_and_skip_pass_witness :
    checkField (mainSchema ["SKIP", "text"] ["a", "b"] "") 2 1 "anything" = .ok [] ∧
      colDiags 1 (Validate (mainSchema ["SKIP", "text"] ["a", "b"] "")
        [⟨["", "anything"], 2⟩]).log = [] :=
  C11_text_and_skip_pass (mainSchema ["SKIP", "text"] ["a", "b"] "") ⟨["", "anything"], 2⟩ 1
    "anything" "text" "b" false (Or.inr rfl) (by decide) (by decide) (by decide) (by decide)

/-- C12, failing on the code: with the header `a,b,c` and the formats `int,int`,
`PrintHeaderCols` lists the first two columns and then panics with index out of
range, reading `formats[2]`; with the header `a` and the formats `int,int`,
`Validate` on the record `["1","x"]`, one field per format, panics with index
out of range at the second field, reading `headerCols[1]`, instead of reporting
the field with an empty label. -/
theorem C12_header_length_panics :
    PrintHeaderCols ["a", "b", "c"] ["int", "int"] =
        ⟨[.title, .rule, .column 0 "a" "int", .column 1 "b" "int"],
          some (.indexOutOfRange 2 2)⟩ ∧
      Validate (mainSchema ["int", "int"] ["a"] "") [⟨["1", "x"], 2⟩] =
        ⟨[], some (.indexOutOfRange 1 1)⟩ := by
  constructor <;> decide

/-- C14: for every schema and every record whose number of fields equals the
number of declared formats, the loop body of `Validate` logs no column-count
mismatch for the record, `Validate` on the record logs none, and `Validate` on
any stream of such records logs none. -/
theorem C14_no_mismatch_when_counts_agree (pr : PRStruct) (line : LineStruct)
    (h : line.fields.length = pr.formats.length) :
    (∀ a b, LogEntry.countMismatch a b ∉ (validateLine pr line).log) ∧
      (∀ a b, LogEntry.countMismatch a b ∉ (Validate pr [line]).log) ∧
      ∀ lines : List LineStruct, (∀ l ∈ lines, l.fields.length = pr.formats.length) →
        ∀ a b, LogEntry.countMismatch a b ∉ (Validate pr lines).log := by
  have hline : ∀ l : LineStruct, l.fields.length = pr.formats.length →
      ∀ a b, LogEntry.countMismatch a b ∉ (validateLine pr l).log := by
    intro l hl a b hmem
    simp only [validateLine, hl, ne_eq, not_true_eq_false, if_false, List.nil_append] at hmem
    exact countMismatch_not_mem_validateFields pr _ 0 _ a b hmem
  refine ⟨hline line h, ?_, ?_⟩
  · intro a b
    rw [(Validate_single pr line).1]
    exact hline line h a b
  · intro lines hl a b hmem
    obtain ⟨l, hlm, he⟩ := Validate_log_mem pr lines _ hmem
    exact hline l (hl l hlm) a b he

/-- Witness of C14: formats `int,int` and the record `["x","2"]`. -/
theorem C14_no_mismatch_when_counts_agree_witness :
    (∀ a b, LogEntry.countMismatch a b ∉
        (validateLine (mainSchema ["int", "int"] ["a", "b"] "") ⟨["x", "2"], 2⟩).log) ∧
      (∀ a b, LogEntry.countMismatch a b ∉
        (Validate (mainSchema ["int", "int"] ["a", "b"] "") [⟨["x", "2"], 2⟩]).log) ∧
      ∀ lines : List LineStruct,
        (∀ l ∈ lines, l.fields.length = (mainSchema ["int", "int"] ["a", "b"] "").formats.length) →
        ∀ a b, LogEntry.countMismatch a b ∉
          (Validate (mainSchema ["int", "int"] ["a", "b"] "") lines).log :=
  C14_no_mismatch_when_counts_agree (mainSchema ["int", "int"] ["a", "b"] "") ⟨["x", "2"], 2⟩
    (by decide)

/-- C13 as stated fails: with formats `bogus1,bogus2`, blank columns `0` and
the record `["","x"]`, the first unrecognized name in declared column order is
`bogus1`, yet the abort names `bogus2`, because the empty field of column 0 is
skipped; with the record `["y","x"]` the same schema aborts on `bogus1`, so the
name depends on the contents of the record. -/
theorem C13_counterexample :
    firstUnrecognized ["bogus1", "bogus2"] = some "bogus1" ∧
      (Validate (mainSchema ["bogus1", "bogus2"] ["a", "b"] "0") [⟨["", "x"], 2⟩]).abort =
        some (.unrecognizedFormat "bogus2") ∧
      (Validate (mainSchema ["bogus1", "bogus2"] ["a", "b"] "0") [⟨["y", "x"], 2⟩]).abort =
        some (.unrecognizedFormat "bogus1") := by
  refine ⟨?_, ?_, ?_⟩ <;> decide

/-- C13 amended: whenever `Validate` aborts with the unrecognized-format error,
the stream splits at the aborting record: every record before it is validated
to its end without a panic, the loop body panics on it with the same error, and
the log is the log of the earlier records followed by what the aborting record
logged.  The name in the error is the format of the first field of the aborting
record that is not an empty field in a blank-allowed column and whose column
format is not recognized: the check of that field panics with the error, and
every field before it in the record is an empty field in a blank-allowed column
or has a recognized format.  When no column before it is blank-allowed, the
name is the first unrecognized name in declared column order. -/
theorem C13_abort_names_first_reached (pr : PRStruct) (lines : List LineStruct) (f : String)
    (h : (Validate pr lines).abort = some (.unrecognizedFormat f)) :
    ∃ (pre : List LineStruct) (l : LineStruct) (post : List LineStruct) (j : Nat)
        (field : String),
      lines = pre ++ l :: post ∧
      (∀ r ∈ pre, (validateLine pr r).abort = none) ∧
      (validateLine pr l).abort = some (.unrecognizedFormat f) ∧
      Validate pr lines =
        ⟨pre.flatMap (fun r => (validateLine pr r).log) ++ (validateLine pr l).log,
          some (.unrecognizedFormat f)⟩ ∧
      l.fields[j]? = some field ∧
      checkField pr l.lineNum j field = .error (.unrecognizedFormat f) ∧
      pr.formats[j]? = some f ∧ regexOf f = none ∧
      ¬ (pr.blankCols[j]? = some true ∧ field = "") ∧
      (∀ k fk, k < j → l.fields[k]? = some fk →
        (pr.blankCols[k]? = some true ∧ fk = "") ∨
          ∃ g, pr.formats[k]? = some g ∧ regexOf g ≠ none) ∧
      ((∀ k, k < j → pr.blankCols[k]? ≠ some true) → firstUnrecognized pr.formats = some f) := by
  obtain ⟨pre, l, post, hsplit, hpre, hab⟩ := Validate_abort_first pr lines _ h
  have hab2 := hab
  simp only [validateLine] at hab2
  obtain ⟨j, field, h1, h2, h3⟩ := validateFields_abort_first pr _ _ 0 _ hab2
  rw [Nat.zero_add] at h2
  obtain ⟨h4, h5⟩ := checkField_error_unrecognized h2
  have hbefore : ∀ k fk, k < j → l.fields[k]? = some fk →
      (pr.blankCols[k]? = some true ∧ fk = "") ∨
        ∃ g, pr.formats[k]? = some g ∧ regexOf g ≠ none := by
    intro k fk hk hfk
    obtain ⟨out, hout⟩ := h3 k fk hk hfk
    rw [Nat.zero_add] at hout
    exact checkField_ok_cases hout
  have hV : Validate pr lines =
      ⟨pre.flatMap (fun r => (validateLine pr r).log) ++ (validateLine pr l).log,
        some (.unrecognizedFormat f)⟩ := by
    rw [hsplit, Validate_append pr pre _ hpre, Validate_cons_abort pr l post _ hab]
  refine ⟨pre, l, post, j, field, hsplit, hpre, hab, hV, h1, h2, h4, h5,
    checkField_error_not_blank h2, hbefore, ?_⟩
  intro hnb
  unfold firstUnrecognized
  apply find?_eq_of_first _ pr.formats j f h4 (by simp [h5])
  intro k y hk hy
  obtain ⟨hj, -⟩ := List.getElem?_eq_some.mp h1
  have hkl : k < l.fields.length := by omega
  rcases hbefore k l.fields[k] hk (List.getElem?_eq_getElem hkl) with ⟨hb, -⟩ | ⟨g, hg, hr⟩
  · exact absurd hb (hnb k hk)
  · rw [hy] at hg
    cases hg
    cases hre : regexOf y with
    | none => exact absurd hre hr
    | some re => rfl

/-- Witness of C13 amended: formats `int,bogus1,bogus2`, blank columns `1` and
the records `["x"]`, `["7","","z"]` and `["8","y","z"]`: the abort comes at the
second record and names `bogus2`. -/
theorem C13_abort_names_first_reached_witness :
    ∃ (pre : List LineStruct) (l : LineStruct) (post : List LineStruct) (j : Nat)
        (field : String),
      [(⟨["x"], 2⟩ : LineStruct), ⟨["7", "", "z"], 3⟩, ⟨["8", "y", "z"], 4⟩] =
        pre ++ l :: post ∧
      (∀ r ∈ pre,
        (validateLine (mainSchema ["int", "bogus1", "bogus2"] ["a", "b", "c"] "1") r).abort =
          none) ∧
      (validateLine (mainSchema ["int", "bogus1", "bogus2"] ["a", "b", "c"] "1") l).abort =
        some (.unrecognizedFormat "bogus2") ∧
      Validate (mainSchema ["int", "bogus1", "bogus2"] ["a", "b", "c"] "1")
          [⟨["x"], 2⟩, ⟨["7", "", "z"], 3⟩, ⟨["8", "y", "z"], 4⟩] =
        ⟨pre.flatMap (fun r =>
            (validateLine (mainSchema ["int", "bogus1", "bogus2"] ["a", "b", "c"] "1") r).log) ++
          (validateLine (mainSchema ["int", "bogus1", "bogus2"] ["a", "b", "c"] "1") l).log,
          some (.unrecognizedFormat "bogus2")⟩ ∧
      l.fields[j]? = some field ∧
      checkField (mainSchema ["int", "bogus1", "bogus2"] ["a", "b", "c"] "1") l.lineNum j field =
        .error (.unrecognizedFormat "bogus2") ∧
      (mainSchema ["int", "bogus1", "bogus2"] ["a", "b", "c"] "1").formats[j]? = some "bogus2" ∧
      regexOf "bogus2" = none ∧
      ¬ ((mainSchema ["int", "bogus1", "bogus2"] ["a", "b", "c"] "1").blankCols[j]? = some true ∧
        field = "") ∧
      (∀ k fk, k < j → l.fields[k]? = some fk →
        ((mainSchema ["int", "bogus1", "bogus2"] ["a", "b", "c"] "1").blankCols[k]? = some true ∧
            fk = "") ∨
          ∃ g, (mainSchema ["int", "bogus1", "bogus2"] ["a", "b", "c"] "1").formats[k]? = some g ∧
            regexOf g ≠ none) ∧
      ((∀ k, k < j →
          (mainSchema ["int", "bogus1", "bogus2"] ["a", "b", "c"] "1").blankCols[k]? ≠ some true) →
        firstUnrecognized (mainSchema ["int", "bogus1", "bogus2"] ["a", "b", "c"] "1").formats =
          some "bogus2") :=
  C13_abort_names_first_reached (mainSchema ["int", "bogus1", "bogus2"] ["a", "b", "c"] "1")
    [⟨["x"], 2⟩, ⟨["7", "", "z"], 3⟩, ⟨["8", "y", "z"], 4⟩] "bogus2" (by decide)

/-- C15: for every schema built by `main` whose formats are all recognized and
every record that has fewer fields than the schema has columns and no more
fields than the header has labels, `Validate` does not abort and logs exactly
one column-count mismatch, followed by what the field loop logs; each present
field at index `i` is checked against the format of column `i` and the
diagnostics of column `i` are what that check gives; and they are the same as
the diagnostics of column `i` for any longer record that starts with the same
fields, a full-width record in particular. -/
theorem C15_short_record (formats header : List String) (spec : String)
    (fields more : List String) (ln : Nat)
    (hrec : ∀ f ∈ formats, regexOf f ≠ none)
    (hshort : fields.length < formats.length) (hhead : fields.length ≤ header.length) :
    Validate (mainSchema formats header spec) [⟨fields, ln⟩] =
        ⟨.countMismatch fields.length formats.length ::
          (validateFields (mainSchema formats header spec) ln 0 fields).log, none⟩ ∧
      (∀ a b, LogEntry.countMismatch a b ∉
        (validateFields (mainSchema formats header spec) ln 0 fields).log) ∧
      (∀ i field, fields[i]? = some field →
        ∃ out, checkField (mainSchema formats header spec) ln i field = .ok out ∧
          colDiags i (Validate (mainSchema formats header spec) [⟨fields, ln⟩]).log = out) ∧
      (∀ i, i < fields.length →
        colDiags i (Validate (mainSchema formats header spec) [⟨fields ++ more, ln⟩]).log =
          colDiags i (Validate (mainSchema formats header spec) [⟨fields, ln⟩]).log) := by
  have hok : ∀ j field, fields[j]? = some field →
      ∃ out, checkField (mainSchema formats header spec) ln j field = .ok out := by
    intro j field hj
    obtain ⟨hjl, -⟩ := List.getElem?_eq_some.mp hj
    have hjf : j < formats.length := by omega
    apply checkField_ok_of
    · simp only [mainSchema, CreateBlankColArray_length]; omega
    · simp only [mainSchema]; omega
    · exact Or.inr ⟨formats[j], by simp [mainSchema, hjf], hrec _ (List.getElem_mem hjf)⟩
  have hab : (validateFields (mainSchema formats header spec) ln 0 fields).abort = none := by
    apply validateFields_abort_none
    intro j field hj
    rw [Nat.zero_add]
    exact hok j field hj
  have hne : fields.length ≠ formats.length := by omega
  have hV : Validate (mainSchema formats header spec) [⟨fields, ln⟩] =
      ⟨.countMismatch fields.length formats.length ::
        (validateFields (mainSchema formats header spec) ln 0 fields).log, none⟩ := by
    have hf : (mainSchema formats header spec).formats = formats := rfl
    simp only [Validate, validateLine, hab, hf, hne, ne_eq, not_false_eq_true, if_true,
      List.singleton_append, List.append_nil]
  refine ⟨hV, countMismatch_not_mem_validateFields _ _ _ _, ?_, ?_⟩
  · intro i field hi
    obtain ⟨out, hout⟩ := hok i field hi
    refine ⟨out, hout, ?_⟩
    rw [(Validate_single _ _).1, colDiags_validateLine]
    apply colDiags_validateFields_at _ _ _ _ field out _ hi hout
    apply validateFields_abort_none
    intro j f hj
    rw [List.getElem?_take] at hj
    split at hj
    · rw [Nat.zero_add]; exact hok j f hj
    · cases hj
  · intro i hi
    rw [(Validate_single _ _).1, (Validate_single _ _).1, colDiags_validateLine,
      colDiags_validateLine]
    simp only
    rw [validateFields_append _ _ _ _ 0 hab]
    simp only [colDiags_append]
    rw [colDiags_validateFields_of_ne _ _ i _ more (Or.inl (by omega))]
    simp

/-- Witness of C15: formats `int,uuid,int`, the short record `["x","y"]` and
its full-width extension by `["3"]`. -/
theorem C15_short_record_witness :
    Validate (mainSchema ["int", "uuid", "int"] ["a", "b", "c"] "") [⟨["x", "y"], 4⟩] =
        ⟨.countMismatch ["x", "y"].length ["int", "uuid", "int"].length ::
          (validateFields (mainSchema ["int", "uuid", "int"] ["a", "b", "c"] "") 4 0
            ["x", "y"]).log, none⟩ ∧
      (∀ a b, LogEntry.countMismatch a b ∉
        (validateFields (mainSchema ["int", "uuid", "int"] ["a", "b", "c"] "") 4 0
          ["x", "y"]).log) ∧
      (∀ i field, ["x", "y"][i]? = some field →
        ∃ out, checkField (mainSchema ["int", "uuid", "int"] ["a", "b", "c"] "") 4 i field =
            .ok out ∧
          colDiags i (Validate (mainSchema ["int", "uuid", "int"] ["a", "b", "c"] "")
            [⟨["x", "y"], 4⟩]).log = out) ∧
      (∀ i, i < ["x", "y"].length →
        colDiags i (Validate (mainSchema ["int", "uuid", "int"] ["a", "b", "c"] "")
            [⟨["x", "y"] ++ ["3"], 4⟩]).log =
          colDiags i (Validate (mainSchema ["int", "uuid", "int"] ["a", "b", "c"] "")
            [⟨["x", "y"], 4⟩]).log) :=
  C15_short_record ["int", "uuid", "int"] ["a", "b", "c"] "" ["x", "y"] ["3"] 4
    (by
      intro f hf
      simp only [List.mem_cons, List.mem_singleton, List.not_mem_nil, or_false] at hf
      rcases hf with rfl | rfl | rfl <;> simp [regexOf])
    (by decide) (by decide)

/-- C16, failing on the code: with the preset `backup`, `HandleDefinedFormat`
gives a field-format of 33 columns and the blank columns
`11,14,15,16,17,20,22,23`, but the array that `CreateBlankColArray` builds from
them marks the columns 0 to 7 as well: the pattern of a one-digit column
matches the last digit of a two-digit token (the defect of C1). -/
theorem C16_backup_preset_marks_more :
    (Split (HandleDefinedFormat "backup" defaultFlags).fieldFormatString ',').length = 33 ∧
      (HandleDefinedFormat "backup" defaultFlags).blankColString = "11,14,15,16,17,20,22,23" ∧
      markedCols (flagsSchema (HandleDefinedFormat "backup" defaultFlags) []).blankCols =
        [0, 1, 2, 3, 4, 5, 6, 7, 11, 14, 15, 16, 17, 20, 22, 23] := by
  refine ⟨?_, ?_, ?_⟩ <;> decide

/-- C17, failing on the code: every name of the preset `backup` is recognized
by the switch of `Validate`, but the default value of the flag `field-format`
has the name `ll` at column 18, which the switch does not recognize; with the
default flags, a record of 25 fields makes `Validate` reach the
unrecognized-format panic for `ll`. -/
theorem C17_default_format_has_unrecognized_name :
    (Split (HandleDefinedFormat "backup" defaultFlags).fieldFormatString ',').all
        (fun f => (regexOf f).isSome) = true ∧
      (Split defaultFlags.fieldFormatString ',')[18]? = some "ll" ∧
      regexOf "ll" = none ∧
      (Split defaultFlags.fieldFormatString ',').filter (fun f => (regexOf f).isNone) = ["ll"] ∧
      (Validate (flagsSchema (applyPreset defaultFlags) (List.replicate 25 "h"))
        [⟨List.replicate 25 "x", 2⟩]).abort = some (.unrecognizedFormat "ll") := by
  refine ⟨?_, ?_, rfl, ?_, ?_⟩ <;> decide

/-- C18: for every schema and every finite stream of records whose field counts
are within the bounds of `formats`, `blankCols` and `headerCols`, `Validate`
aborts with the unrecognized-format error if and only if some record has a
field whose column format is not recognized and which is not an empty field in
a blank-allowed column; and at the first such record, every record before it
is validated to its end, the log is the log of those records followed by what
the aborting record logged, and nothing of the later records is in it. -/
theorem C18_abort_iff_unrecognized_field (pr : PRStruct) (lines : List LineStruct)
    (hb : ∀ l ∈ lines, l.fields.length ≤ pr.formats.length ∧
      l.fields.length ≤ pr.blankCols.length ∧ l.fields.length ≤ pr.headerCols.length) :
    ((∃ f, (Validate pr lines).abort = some (.unrecognizedFormat f)) ↔
        ∃ l ∈ lines, hasUnrecognizedField pr l) ∧
      ∀ pre l post, lines = pre ++ l :: post → (∀ r ∈ pre, ¬ hasUnrecognizedField pr r) →
        hasUnrecognizedField pr l →
        (∃ f, (validateLine pr l).abort = some (.unrecognizedFormat f)) ∧
          (∀ r ∈ pre, (validateLine pr r).abort = none) ∧
          Validate pr lines =
            ⟨pre.flatMap (fun r => (validateLine pr r).log) ++ (validateLine pr l).log,
              (validateLine pr l).abort⟩ := by
  constructor
  · constructor
    · rintro ⟨f, hf⟩
      obtain ⟨l, hl, hab⟩ := Validate_abort pr lines _ hf
      obtain ⟨h1, h2, h3⟩ := hb l hl
      exact ⟨l, hl, (validateLine_abort_in_bounds h1 h2 h3 hab).2⟩
    · exact Validate_abort_of_unrecognized pr lines hb
  · intro pre l post hlines hpre hbad
    subst hlines
    obtain ⟨h1, h2, h3⟩ := hb l (by simp)
    obtain ⟨f, hf⟩ := validateLine_abort_of_unrecognized h1 h2 h3 hbad
    have hnone : ∀ r ∈ pre, (validateLine pr r).abort = none := by
      intro r hr
      obtain ⟨r1, r2, r3⟩ := hb r (by simp [hr])
      cases hab : (validateLine pr r).abort with
      | none => rfl
      | some a => exact absurd (validateLine_abort_in_bounds r1 r2 r3 hab).2 (hpre r hr)
    refine ⟨⟨f, hf⟩, hnone, ?_⟩
    rw [Validate_append pr pre _ hnone, Validate_cons_abort pr l post _ hf, hf]

/-- Witness of C18: formats `int,bogus` with blank columns `1`, and the records
`["x",""]`, `["1","y"]`, `["2","z"]`. -/
theorem C18_abort_iff_unrecognized_field_witness :
    ((∃ f, (Validate (mainSchema ["int", "bogus"] ["a", "b"] "1")
          [⟨["x", ""], 2⟩, ⟨["1", "y"], 3⟩, ⟨["2", "z"], 4⟩]).abort =
          some (.unrecognizedFormat f)) ↔
        ∃ l ∈ [(⟨["x", ""], 2⟩ : LineStruct), ⟨["1", "y"], 3⟩, ⟨["2", "z"], 4⟩],
          hasUnrecognizedField (mainSchema ["int", "bogus"] ["a", "b"] "1") l) ∧
      ∀ pre l post,
        [(⟨["x", ""], 2⟩ : LineStruct), ⟨["1", "y"], 3⟩, ⟨["2", "z"], 4⟩] = pre ++ l :: post →
        (∀ r ∈ pre, ¬ hasUnrecognizedField (mainSchema ["int", "bogus"] ["a", "b"] "1") r) →
        hasUnrecognizedField (mainSchema ["int", "bogus"] ["a", "b"] "1") l →
        (∃ f, (validateLine (mainSchema ["int", "bogus"] ["a", "b"] "1") l).abort =
            some (.unrecognizedFormat f)) ∧
          (∀ r ∈ pre, (validateLine (mainSchema ["int", "bogus"] ["a", "b"] "1") r).abort =
            none) ∧
          Validate (mainSchema ["int", "bogus"] ["a", "b"] "1")
              [⟨["x", ""], 2⟩, ⟨["1", "y"], 3⟩, ⟨["2", "z"], 4⟩] =
            ⟨pre.flatMap
                (fun r => (validateLine (mainSchema ["int", "bogus"] ["a", "b"] "1") r).log) ++
              (validateLine (mainSchema ["int", "bogus"] ["a", "b"] "1") l).log,
              (validateLine (mainSchema ["int", "bogus"] ["a", "b"] "1") l).abort⟩ :=
  C18_abort_iff_unrecognized_field (mainSchema ["int", "bogus"] ["a", "b"] "1")
    [⟨["x", ""], 2⟩, ⟨["1", "y"], 3⟩, ⟨["2", "z"], 4⟩]
    (by
      intro l hl
      simp only [List.mem_cons, List.mem_singleton, List.not_mem_nil, or_false] at hl
      rcases hl with rfl | rfl | rfl <;> decide)

/-- C19: for every column count `n`, every index `i < n` and every
blank-column specification that is the comma-separated list of the decimal
numerals of some numbers, if `i` is one of the numbers then
`CreateBlankColArray(spec, n)[i]` is true; and for every specification and
every count the returned array has exactly that length. -/
theorem C19_listed_column_is_blank (spec : String) (nums : List Nat) (n i : Nat)
    (hspec : spec.data = joinComma (nums.map (Nat.toDigits 10))) (hi : i < n)
    (hmem : i ∈ nums) :
    (CreateBlankColArray spec n)[i]? = some true ∧
      ∀ (s : String) (m : Nat), (CreateBlankColArray s m).length = m := by
  refine ⟨?_, CreateBlankColArray_length⟩
  simp only [CreateBlankColArray, List.getElem?_map, List.getElem?_range hi, Option.map_some']
  rw [MatchString_blankColRegex spec nums i hspec hmem]

/-- Witness of C19: the specification `3,7,9`, 12 columns and the index 7. -/
theorem C19_listed_column_is_blank_witness :
    (CreateBlankColArray "3,7,9" 12)[7]? = some true ∧
      ∀ (s : String) (m : Nat), (CreateBlankColArray s m).length = m :=
  C19_listed_column_is_blank "3,7,9" [3, 7, 9] 12 7 (by decide) (by decide) (by decide)

/-- C20, failing on the code: with `output-lines` 0 the test
`lineNum % outputLines` at the top of the first iteration is the run-time panic
integer divide by zero, so the loop sends nothing and never closes the channel,
on the empty input as on any other; for every other value of `output-lines`
the loop over an input of records ends by closing the channel. -/
theorem C20_zero_output_lines_panics :
    (readLoop 0 100 2 (fun _ => 0) []).status = .divideByZero ∧
      (readLoop 0 100 2 (fun _ => 0) [.record ["x"], .record ["y"]]).status = .divideByZero ∧
      (readLoop 0 100 2 (fun _ => 0) [.record ["x"], .record ["y"]]).sent = [] ∧
      ∀ (outputLines samplePercentage : Int) (draws : Nat → Nat) (records : List (List String)),
        outputLines ≠ 0 →
        (readLoop outputLines samplePercentage 2 draws (records.map .record)).status =
          .closed := by
  refine ⟨by decide, by decide, by decide, ?_⟩
  intro outputLines samplePercentage draws records h0
  exact (readLoop_records outputLines samplePercentage h0 records 2 draws).1

end Proofreader
